import Mathlib

/-!
Shallow embedding of the lean-checker repository (src/environment.rs,
src/parser.rs) together with proofs about its specification.

Modelling conventions:
* The Rust `HashMap<usize, T>` tables are association lists `List (Nat × T)`
  queried with `List.lookup`; a successful insertion conses a fresh key.
* The Rust integrity checks are `assert!`/`expect` panics.  Each insertion
  operation is embedded as an `Except EnvError Environment` function that
  performs the same checks in the same source order and only builds the new
  environment after all checks pass (exactly as the source, whose asserts
  all precede the `insert` call).  An `Except.error` result therefore means
  the call failed before any table was mutated.
* The recursive stringification functions take an explicit fuel argument;
  `RenderErr.fuelOut` marks fuel exhaustion (the Rust functions recurse
  unboundedly), `RenderErr.notFound` models the `expect`/index panics and
  `RenderErr.assertFail` the balanced-stack assert in `expr_to_string`.
* The parser works on lines given as `List Char`; `PErr.line` models a
  `LineError` value, `PErr.panic` models a Rust panic (`todo!` and the
  arena asserts).  The `println!` observability output of the `post_add_*`
  helpers does not affect the environment and is not modelled.
-/

namespace LC

/-- NameItem from environment.rs: a textual or integer name segment. -/
inductive NameItem where
  | str (s : String)
  | int (i : Nat)
deriving DecidableEq

/-- Display impl for NameItem: strings verbatim, integers in decimal. -/
def NameItem.render : NameItem → String
  | .str s => s
  | .int i => toString i

/-- Name from environment.rs: a segment plus a parent index (0 = no parent). -/
structure Name where
  item : NameItem
  parent : Nat
deriving DecidableEq

/-- Level from environment.rs. -/
inductive Level where
  | zero
  | succ (u : Nat)
  | max (u1 u2 : Nat)
  | imax (u1 u2 : Nat)
  | param (n : Nat)
deriving DecidableEq

/-- InfoAnnotation from environment.rs (called BinderInfo here, the
spec's name for it): binder display information. -/
inductive BinderInfo where
  | default
  | implicit
  | strictImplicit
  | instImplicit
deriving DecidableEq

/-- InfoAnnotation::to_delims from environment.rs. -/
def BinderInfo.toDelims : BinderInfo → String × String
  | .default => ("(", ")")
  | .implicit => ("\x7b", "\x7d")
  | .strictImplicit => ("\x7b\x7b", "\x7d\x7d")
  | .instImplicit => ("[", "]")

/-- Expr from environment.rs. -/
inductive Expr where
  | boundVar (i : Nat)
  | sort (u : Nat)
  | constant (n : Nat) (lvls : List Nat)
  | funAppl (f a : Nat)
  | lambda (info : BinderInfo) (n : Nat) (e1 e2 : Nat)
  | pi (info : BinderInfo) (n : Nat) (e1 e2 : Nat)
deriving DecidableEq

/-- Decl from environment.rs. -/
inductive Decl where
  | Def (ty body : Nat) (levelNames : List Nat)
  | Ind (params : Nat) (ty : Nat) (intros : List (Nat × Nat)) (levelNames : List Nat)
deriving DecidableEq

/-- Environment from environment.rs: the four index-keyed tables. -/
structure Environment where
  names : List (Nat × Name)
  levels : List (Nat × Level)
  exprs : List (Nat × Expr)
  decls : List (Nat × Decl)
  show_var_stack : Bool
deriving DecidableEq

/-- Environment::new: empty tables except for Level::Zero at index 0. -/
def Environment.new : Environment :=
  { names := [], levels := [(0, Level.zero)], exprs := [], decls := [], show_var_stack := false }

/-- Errors raised by the insertion operations (the Rust asserts):
a duplicate-index insertion or a missing embedded reference. -/
inductive EnvError where
  | duplicate
  | missingName
  | missingLevel
  | missingExpr
deriving DecidableEq

/-- Key-presence test on the name table (has_name / contains_key). -/
def containsName (e : Environment) (idx : Nat) : Bool :=
  (e.names.lookup idx).isSome

/-- Key-presence test on the level table (has_level / contains_key). -/
def containsLevel (e : Environment) (idx : Nat) : Bool :=
  (e.levels.lookup idx).isSome

/-- Key-presence test on the expression table (has_expr / contains_key). -/
def containsExpr (e : Environment) (idx : Nat) : Bool :=
  (e.exprs.lookup idx).isSome

/-- Key-presence test on the declaration table (contains_key on decls). -/
def containsDecl (e : Environment) (idx : Nat) : Bool :=
  (e.decls.lookup idx).isSome

/-- Environment::add_name: duplicate check, then parent check when the
parent index is not the sentinel 0, then insert. -/
def addName (e : Environment) (idx : Nat) (item : NameItem) (parent : Nat) :
    Except EnvError Environment :=
  if containsName e idx then .error .duplicate
  else if parent ≠ 0 ∧ containsName e parent = false then .error .missingName
  else .ok { e with names := (idx, { item := item, parent := parent }) :: e.names }

/-- Environment::add_level_succ. -/
def addLevelSucc (e : Environment) (uidxp uidx : Nat) : Except EnvError Environment :=
  if containsLevel e uidxp then .error .duplicate
  else if containsLevel e uidx = false then .error .missingLevel
  else .ok { e with levels := (uidxp, Level.succ uidx) :: e.levels }

/-- Environment::add_level_max. -/
def addLevelMax (e : Environment) (uidxp uidx1 uidx2 : Nat) : Except EnvError Environment :=
  if containsLevel e uidxp then .error .duplicate
  else if containsLevel e uidx1 = false then .error .missingLevel
  else if containsLevel e uidx2 = false then .error .missingLevel
  else .ok { e with levels := (uidxp, Level.max uidx1 uidx2) :: e.levels }

/-- Environment::add_level_imax. -/
def addLevelImax (e : Environment) (uidxp uidx1 uidx2 : Nat) : Except EnvError Environment :=
  if containsLevel e uidxp then .error .duplicate
  else if containsLevel e uidx1 = false then .error .missingLevel
  else if containsLevel e uidx2 = false then .error .missingLevel
  else .ok { e with levels := (uidxp, Level.imax uidx1 uidx2) :: e.levels }

/-- Environment::add_level_param. -/
def addLevelParam (e : Environment) (uidxp nidx : Nat) : Except EnvError Environment :=
  if containsLevel e uidxp then .error .duplicate
  else if containsName e nidx = false then .error .missingName
  else .ok { e with levels := (uidxp, Level.param nidx) :: e.levels }

/-- Environment::add_expr_sort. -/
def addExprSort (e : Environment) (eidxp uidx : Nat) : Except EnvError Environment :=
  if containsExpr e eidxp then .error .duplicate
  else if containsLevel e uidx = false then .error .missingLevel
  else .ok { e with exprs := (eidxp, Expr.sort uidx) :: e.exprs }

/-- Environment::add_expr_bound_var: only the duplicate check, the de
Bruijn index is not a table reference. -/
def addExprBoundVar (e : Environment) (eidxp i : Nat) : Except EnvError Environment :=
  if containsExpr e eidxp then .error .duplicate
  else .ok { e with exprs := (eidxp, Expr.boundVar i) :: e.exprs }

/-- Environment::add_expr_pi. -/
def addExprPi (e : Environment) (eidxp : Nat) (info : BinderInfo) (nidx eidx1 eidx2 : Nat) :
    Except EnvError Environment :=
  if containsExpr e eidxp then .error .duplicate
  else if containsName e nidx = false then .error .missingName
  else if containsExpr e eidx1 = false then .error .missingExpr
  else if containsExpr e eidx2 = false then .error .missingExpr
  else .ok { e with exprs := (eidxp, Expr.pi info nidx eidx1 eidx2) :: e.exprs }

/-- Environment::add_expr_lambda. -/
def addExprLambda (e : Environment) (eidxp : Nat) (info : BinderInfo) (nidx eidx1 eidx2 : Nat) :
    Except EnvError Environment :=
  if containsExpr e eidxp then .error .duplicate
  else if containsName e nidx = false then .error .missingName
  else if containsExpr e eidx1 = false then .error .missingExpr
  else if containsExpr e eidx2 = false then .error .missingExpr
  else .ok { e with exprs := (eidxp, Expr.lambda info nidx eidx1 eidx2) :: e.exprs }

/-- Environment::add_expr_constant: the level-argument list is checked
elementwise (source: level_idxs.iter().for_each has_level). -/
def addExprConstant (e : Environment) (eidxp nidx : Nat) (levelIdxs : List Nat) :
    Except EnvError Environment :=
  if containsExpr e eidxp then .error .duplicate
  else if containsName e nidx = false then .error .missingName
  else if levelIdxs.all (containsLevel e) = false then .error .missingLevel
  else .ok { e with exprs := (eidxp, Expr.constant nidx levelIdxs) :: e.exprs }

/-- Environment::add_expr_funappl. -/
def addExprFunAppl (e : Environment) (eidxp eidx1 eidx2 : Nat) : Except EnvError Environment :=
  if containsExpr e eidxp then .error .duplicate
  else if containsExpr e eidx1 = false then .error .missingExpr
  else if containsExpr e eidx2 = false then .error .missingExpr
  else .ok { e with exprs := (eidxp, Expr.funAppl eidx1 eidx2) :: e.exprs }

/-- Environment::add_definition: no prior declaration for the name, the
defined name itself, both expressions and all level parameter names must
exist. -/
def addDefinition (e : Environment) (nidx eidx1 eidx2 : Nat) (levelNames : List Nat) :
    Except EnvError Environment :=
  if containsDecl e nidx then .error .duplicate
  else if containsName e nidx = false then .error .missingName
  else if containsExpr e eidx1 = false then .error .missingExpr
  else if containsExpr e eidx2 = false then .error .missingExpr
  else if levelNames.all (containsName e) = false then .error .missingName
  else .ok { e with decls := (nidx, Decl.Def eidx1 eidx2 levelNames) :: e.decls }

/-- Environment::add_inductive: no prior declaration for the name, the
type expression, every introduction rule's name and type, and all level
parameter names must exist.  NOTE (faithful to the source): unlike
add_definition, the defined name index itself is never looked up in the
name table. -/
def addInductive (e : Environment) (params nidx eidx : Nat)
    (intros : List (Nat × Nat)) (levelNames : List Nat) : Except EnvError Environment :=
  if containsDecl e nidx then .error .duplicate
  else if containsExpr e eidx = false then .error .missingExpr
  else if intros.all (fun p => containsName e p.1 && containsExpr e p.2) = false then
    .error .missingName
  else if levelNames.all (containsName e) = false then .error .missingName
  else .ok { e with decls := (nidx, Decl.Ind params eidx intros levelNames) :: e.decls }

/-- Error outcomes of the stringification functions: fuel exhaustion
(the Rust recursion has no fuel), a failed `expect` lookup, or the failed
balanced-stack assert in expr_to_string. -/
inductive RenderErr where
  | fuelOut
  | notFound
  | assertFail
deriving DecidableEq

/-- Loop body of Environment::name_to_string: collect the segment strings
leaf-first by following parent links until the sentinel 0. -/
def nameItemsAux (e : Environment) : Nat → Nat → Except RenderErr (List String)
  | 0, _ => .error .fuelOut
  | fuel + 1, idx =>
    if idx = 0 then .ok []
    else
      match e.names.lookup idx with
      | none => .error .notFound
      | some n => (nameItemsAux e fuel n.parent).map (fun l => n.item.render :: l)

/-- Environment::name_to_string: reverse the collected segments (root
first) and join them with dots. -/
def nameToString (e : Environment) (fuel idx : Nat) : Except RenderErr String :=
  (nameItemsAux e fuel idx).map (fun items => String.intercalate "." items.reverse)

/-- Environment::level_to_string. -/
def levelToString (e : Environment) : Nat → Nat → Except RenderErr String
  | 0, _ => .error .fuelOut
  | fuel + 1, uidx =>
    match e.levels.lookup uidx with
    | none => .error .notFound
    | some .zero => .ok "0"
    | some (.succ u) => (levelToString e fuel u).map (fun s => "(succ " ++ s ++ ")")
    | some (.max u1 u2) => do
      let s1 ← levelToString e fuel u1
      let s2 ← levelToString e fuel u2
      pure ("(max " ++ s1 ++ " " ++ s2 ++ ")")
    | some (.imax u1 u2) => do
      let s1 ← levelToString e fuel u1
      let s2 ← levelToString e fuel u2
      pure ("(imax " ++ s1 ++ " " ++ s2 ++ ")")
    | some (.param n) => nameToString e fuel n

/-- Sequential renderer over a list, mirroring the Rust
`iter().map(..).collect::<Vec<_>>()` calls whose closures can panic. -/
def mapRender {α β : Type} (f : α → Except RenderErr β) : List α → Except RenderErr (List β)
  | [] => .ok []
  | x :: xs => do
    let y ← f x
    let ys ← mapRender f xs
    pure (y :: ys)

/-- Environment::expr_to_string_help, carrying the binder stack
explicitly (the Rust `&mut Vec<String>` becomes an input stack and an
output stack; the Vec push/index/pop become append/index/dropLast).  The
pi_or_lambda_to_string helper of the source is inlined in the pi and the
lambda branch. -/
def exprToStringHelp (e : Environment) : Nat → Nat → List String →
    Except RenderErr (String × List String)
  | 0, _, _ => .error .fuelOut
  | fuel + 1, eidx, st =>
    match e.exprs.lookup eidx with
    | none => .error .notFound
    | some (.sort u) => (levelToString e fuel u).map (fun s => ("Sort " ++ s, st))
    | some (.boundVar i) =>
      if i < st.length then .ok (st.getD (st.length - 1 - i) "", st)
      else .ok ("<" ++ toString i ++ ">", st)
    | some (.constant n lvls) => do
      let name ← nameToString e fuel n
      if lvls.isEmpty then pure (name, st)
      else do
        let strs ← mapRender (levelToString e fuel) lvls
        pure (name ++ ".\x7b" ++ String.intercalate "," strs ++ "\x7d", st)
    | some (.funAppl fe be) => do
      let (fst, st1) ← exprToStringHelp e fuel fe st
      let (bst, st2) ← exprToStringHelp e fuel be st1
      pure ("(" ++ fst ++ " " ++ bst ++ ")", st2)
    | some (.pi info n i1 i2) => do
      let delims := info.toDelims
      let varName ← nameToString e fuel n
      let (s1, st1) ← exprToStringHelp e fuel i1 st
      let (s2, st2) ← exprToStringHelp e fuel i2 (st1 ++ [varName])
      let st3 := st2.dropLast
      let r := delims.1 ++ varName ++ " : " ++ s1 ++ delims.2 ++ ", " ++ s2
      let r := if e.show_var_stack then r ++ " [" ++ String.intercalate "," st3 ++ "]" else r
      pure (r, st3)
    | some (.lambda info n i1 i2) => do
      let delims := info.toDelims
      let varName ← nameToString e fuel n
      let (s1, st1) ← exprToStringHelp e fuel i1 st
      let (s2, st2) ← exprToStringHelp e fuel i2 (st1 ++ [varName])
      let st3 := st2.dropLast
      let r := delims.1 ++ varName ++ " : " ++ s1 ++ delims.2 ++ ", " ++ s2
      let r := if e.show_var_stack then r ++ " [" ++ String.intercalate "," st3 ++ "]" else r
      pure (r, st3)

/-- Environment::expr_to_string: start from an empty binder stack and
assert that the stack is empty again afterwards. -/
def exprToString (e : Environment) (fuel eidx : Nat) : Except RenderErr String := do
  let (s, st) ← exprToStringHelp e fuel eidx []
  if st.isEmpty then pure s else .error .assertFail

/-- Environment::def_to_string. -/
def defToString (e : Environment) (fuel : Nat) (name : String) (eidx1 eidx2 : Nat)
    (levelNameIdxs : List Nat) : Except RenderErr String := do
  let levelNames ← mapRender (nameToString e fuel) levelNameIdxs
  let joined := String.intercalate "," levelNames
  let levelNamesFmt := if joined = "" then "" else ".\x7b" ++ joined ++ "\x7d"
  let typeExpr ← exprToString e fuel eidx1
  let bodyExpr ← exprToString e fuel eidx2
  pure ("definition " ++ name ++ levelNamesFmt ++ " " ++ typeExpr ++ " := " ++ bodyExpr)

/-- Per-introduction-rule renderer of Environment::ind_to_string: one
"\n| <name> : <type>" segment. -/
def introLineRender (e : Environment) (fuel : Nat) (p : Nat × Nat) :
    Except RenderErr String := do
  let n ← nameToString e fuel p.1
  let t ← exprToString e fuel p.2
  pure ("\n| " ++ n ++ " : " ++ t)

/-- Environment::ind_to_string; note the introduction-rule lines are
joined with a single space (source: `.join(" ")`). -/
def indToString (e : Environment) (fuel : Nat) (name : String) (eidx : Nat)
    (intros : List (Nat × Nat)) (levelNameIdxs : List Nat) : Except RenderErr String := do
  let typeExpr ← exprToString e fuel eidx
  let levelNames ← mapRender (nameToString e fuel) levelNameIdxs
  let joined := String.intercalate "," levelNames
  let levelNamesFmt := if joined = "" then "" else " \x7b" ++ joined ++ "\x7d"
  let introLines ← mapRender (introLineRender e fuel) intros
  let introsFmt := String.intercalate " " introLines
  pure ("inductive " ++ name ++ levelNamesFmt ++ " " ++ typeExpr ++ introsFmt)

/-- Environment::decl_to_string: look the declaration up, render the
declared name, then dispatch on the declaration kind. -/
def declToString (e : Environment) (fuel nidx : Nat) : Except RenderErr String :=
  match e.decls.lookup nidx with
  | none => .error .notFound
  | some d => do
    let name ← nameToString e fuel nidx
    match d with
    | .Def eidx1 eidx2 levelNames => defToString e fuel name eidx1 eidx2 levelNames
    | .Ind _params eidx intros levelNames => indToString e fuel name eidx intros levelNames

/-- Line-level parser errors: `line` models a `LineError` value carried
up to `ParseError`, `panic` models an aborting Rust panic (`todo!` for
the recognized-but-unsupported tags, or a failed arena assert). -/
inductive PErr where
  | line (msg : String)
  | panic (msg : String)
deriving DecidableEq

/-- Tokenizer `next` from parser.rs: skip leading whitespace, then split
at the next whitespace; `none` when only whitespace remains. -/
def next (s : List Char) : Option (String × List Char) :=
  match s.dropWhile Char.isWhitespace with
  | [] => none
  | c :: cs => some (String.mk (List.takeWhile (fun x => !x.isWhitespace) (c :: cs)),
                     List.dropWhile (fun x => !x.isWhitespace) (c :: cs))

/-- Rust `str::parse::<usize>`: an optional leading plus sign, then a
non-empty run of decimal digits whose value fits in 64 bits. -/
def parseUsize (t : String) : Option Nat :=
  let ds := match t.data with
    | '+' :: rest => rest
    | l => l
  if ds.isEmpty || !(ds.all Char.isDigit) then none
  else
    let v := ds.foldl (fun a c => 10 * a + (c.toNat - 48)) 0
    if v < 2 ^ 64 then some v else none

/-- Tokenizer `next_idx` from parser.rs: next token parsed as usize. -/
def nextIdx (s : List Char) : Option (Nat × List Char) :=
  match next s with
  | some (t, r) => (parseUsize t).map (fun i => (i, r))
  | none => none

/-- `check_eol` from parser.rs: any further token is a grammar error. -/
def checkEol (s : List Char) : Except PErr Unit :=
  match next s with
  | some _ => .error (.line "Expecting EOL")
  | none => .ok ()

/-- The `next(..).ok_or(msg)?` pattern of parser.rs. -/
def expectTok (s : List Char) (msg : String) : Except PErr (String × List Char) :=
  match next s with
  | some x => .ok x
  | none => .error (.line msg)

/-- The `next_idx(..).ok_or(msg)?` pattern of parser.rs. -/
def expectIdx (s : List Char) (msg : String) : Except PErr (Nat × List Char) :=
  match nextIdx s with
  | some x => .ok x
  | none => .error (.line msg)

/-- Lift of an arena insertion into the line parser: a failed Rust
assert is a panic, not a `LineError`. -/
def liftAdd (r : Except EnvError Environment) : Except PErr Environment :=
  match r with
  | .ok e => .ok e
  | .error _ => .error (.panic "assertion failed")

/-- `parse_info_annotation` from parser.rs. -/
def parseBinderInfo (s : String) : Except PErr BinderInfo :=
  if s = "#BD" then .ok .default
  else if s = "#BI" then .ok .implicit
  else if s = "#BS" then .ok .strictImplicit
  else if s = "#BC" then .ok .instImplicit
  else .error (.line "Expecting info tag")

/-- `parse_ni` from parser.rs. -/
def parseNi (env : Environment) (idx : Nat) (s : List Char) : Except PErr Environment := do
  let (p, rest) ← expectIdx s "Expecting index"
  let (i, rest1) ← expectIdx rest "Expecting integer"
  checkEol rest1
  liftAdd (addName env idx (.int i) p)

/-- `parse_ns` from parser.rs. -/
def parseNs (env : Environment) (idx : Nat) (s : List Char) : Except PErr Environment := do
  let (p, rest) ← expectIdx s "Expecting index"
  let (t, rest1) ← expectTok rest "Expecting identifier"
  checkEol rest1
  liftAdd (addName env idx (.str t) p)

/-- `parse_us` from parser.rs. -/
def parseUs (env : Environment) (idx : Nat) (s : List Char) : Except PErr Environment := do
  let (u, rest) ← expectIdx s "Expecting index"
  checkEol rest
  liftAdd (addLevelSucc env idx u)

/-- `parse_um` from parser.rs. -/
def parseUm (env : Environment) (idx : Nat) (s : List Char) : Except PErr Environment := do
  let (u1, rest) ← expectIdx s "Expecting index"
  let (u2, rest1) ← expectIdx rest "Expecting index"
  checkEol rest1
  liftAdd (addLevelMax env idx u1 u2)

/-- `parse_uim` from parser.rs. -/
def parseUim (env : Environment) (idx : Nat) (s : List Char) : Except PErr Environment := do
  let (u1, rest) ← expectIdx s "Expecting index"
  let (u2, rest1) ← expectIdx rest "Expecting index"
  checkEol rest1
  liftAdd (addLevelImax env idx u1 u2)

/-- `parse_up` from parser.rs. -/
def parseUp (env : Environment) (idx : Nat) (s : List Char) : Except PErr Environment := do
  let (n, rest) ← expectIdx s "Expecting index"
  checkEol rest
  liftAdd (addLevelParam env idx n)

/-- `parse_es` from parser.rs. -/
def parseEs (env : Environment) (idx : Nat) (s : List Char) : Except PErr Environment := do
  let (u, rest) ← expectIdx s "Expecting index"
  checkEol rest
  liftAdd (addExprSort env idx u)

/-- `parse_ev` from parser.rs. -/
def parseEv (env : Environment) (idx : Nat) (s : List Char) : Except PErr Environment := do
  let (i, rest) ← expectIdx s "Expecting integer"
  checkEol rest
  liftAdd (addExprBoundVar env idx i)

/-- `parse_ep` from parser.rs. -/
def parseEp (env : Environment) (idx : Nat) (s : List Char) : Except PErr Environment := do
  let (infoTok, rest) ← expectTok s "Expecting info"
  let info ← parseBinderInfo infoTok
  let (nidx, rest1) ← expectIdx rest "Expecting index"
  let (eidx1, rest2) ← expectIdx rest1 "Expecting index"
  let (eidx2, rest3) ← expectIdx rest2 "Expecting index"
  checkEol rest3
  liftAdd (addExprPi env idx info nidx eidx1 eidx2)

/-- `parse_el` from parser.rs. -/
def parseEl (env : Environment) (idx : Nat) (s : List Char) : Except PErr Environment := do
  let (infoTok, rest) ← expectTok s "Expecting info"
  let info ← parseBinderInfo infoTok
  let (nidx, rest1) ← expectIdx rest "Expecting index"
  let (eidx1, rest2) ← expectIdx rest1 "Expecting index"
  let (eidx2, rest3) ← expectIdx rest2 "Expecting index"
  checkEol rest3
  liftAdd (addExprLambda env idx info nidx eidx1 eidx2)

/-- Greedy integer-suffix loop shared by `parse_ec`, `parse_def` and
`parse_ind`: consume whitespace-separated integers until the next token
is absent or not an integer. -/
def munchIdxs (s : List Char) : List Nat × List Char :=
  match h : nextIdx s with
  | some (n, r) =>
    let (l, r2) := munchIdxs r
    (n :: l, r2)
  | none => ([], s)
termination_by s.length
decreasing_by
  have hdw : ∀ (p : Char → Bool) (l : List Char), (List.dropWhile p l).length ≤ l.length := by
    intro p l
    induction l with
    | nil => simp [List.dropWhile]
    | cons a l ih =>
      simp only [List.dropWhile]
      cases p a
      · simp
      · simp
        omega
  have hhd : ∀ (p : Char → Bool) (l : List Char) (c : Char) (cs : List Char),
      l.dropWhile p = c :: cs → p c = false := by
    intro p l
    induction l with
    | nil => intro c cs h; simp [List.dropWhile] at h
    | cons a l ih =>
      intro c cs h
      simp only [List.dropWhile] at h
      cases hp : p a
      · rw [hp] at h; cases h; exact hp
      · rw [hp] at h; exact ih c cs h
  simp only [nextIdx] at h
  cases hn : next s with
  | none => rw [hn] at h; simp at h
  | some tr =>
    rw [hn] at h
    obtain ⟨t, r0⟩ := tr
    simp only [Option.map_eq_some'] at h
    obtain ⟨i, _, heq⟩ := h
    cases heq
    simp only [next] at hn
    cases hd : s.dropWhile Char.isWhitespace with
    | nil => rw [hd] at hn; simp at hn
    | cons c cs =>
      rw [hd] at hn
      simp only [Option.some.injEq, Prod.mk.injEq] at hn
      have hc : c.isWhitespace = false := hhd _ _ _ _ hd
      have hr : r = List.dropWhile (fun x => !x.isWhitespace) cs := by
        rw [← hn.2]
        simp [List.dropWhile, hc]
      have h1 : r.length ≤ cs.length := by rw [hr]; exact hdw _ _
      have h2 : (c :: cs).length ≤ s.length := by
        rw [← hd]; exact hdw _ _
      simp at h2
      omega

/-- `parse_ec` from parser.rs. -/
def parseEc (env : Environment) (idx : Nat) (s : List Char) : Except PErr Environment := do
  let (nidx, rest) ← expectIdx s "Expecting index"
  let (levelIdxs, rest1) := munchIdxs rest
  checkEol rest1
  liftAdd (addExprConstant env idx nidx levelIdxs)

/-- `parse_ea` from parser.rs. -/
def parseEa (env : Environment) (idx : Nat) (s : List Char) : Except PErr Environment := do
  let (eidx1, rest) ← expectIdx s "Expecting index"
  let (eidx2, rest1) ← expectIdx rest "Expecting index"
  checkEol rest1
  liftAdd (addExprFunAppl env idx eidx1 eidx2)

/-- `parse_def` from parser.rs. -/
def parseDef (env : Environment) (s : List Char) : Except PErr Environment := do
  let (nidx, rest) ← expectIdx s "Expecting index"
  let (eidx1, rest1) ← expectIdx rest "Expecting index"
  let (eidx2, rest2) ← expectIdx rest1 "Expecting index"
  let (levelNidxs, rest3) := munchIdxs rest2
  checkEol rest3
  liftAdd (addDefinition env nidx eidx1 eidx2 levelNidxs)

/-- Counted introduction-rule loop of `parse_ind`: exactly `k` pairs of
integers. -/
def munchIntros (k : Nat) (s : List Char) : Except PErr (List (Nat × Nat) × List Char) :=
  match k with
  | 0 => .ok ([], s)
  | k + 1 => do
    let (ni, r) ← expectIdx s "Expecting index"
    let (ei, r1) ← expectIdx r "Expecting index"
    let (rest, r2) ← munchIntros k r1
    .ok ((ni, ei) :: rest, r2)

/-- `parse_ind` from parser.rs. -/
def parseInd (env : Environment) (s : List Char) : Except PErr Environment := do
  let (num, rest) ← expectIdx s "Expecting number"
  let (nidx, rest1) ← expectIdx rest "Expecting index"
  let (eidx, rest2) ← expectIdx rest1 "Expecting index"
  let (numIntros, rest3) ← expectIdx rest2 "Expecting number"
  let (intros, rest4) ← munchIntros numIntros rest3
  let (levelNidxs, rest5) := munchIdxs rest4
  checkEol rest5
  liftAdd (addInductive env num nidx eidx intros levelNidxs)

/-- `parse_index_command` from parser.rs; the `todo!` arms panic. -/
def parseIndexCommand (env : Environment) (idx : Nat) (s : List Char) :
    Except PErr Environment := do
  let (cmd, rest) ← expectTok s "Expecting index command"
  if cmd = "#NI" then parseNi env idx rest
  else if cmd = "#NS" then parseNs env idx rest
  else if cmd = "#US" then parseUs env idx rest
  else if cmd = "#UM" then parseUm env idx rest
  else if cmd = "#UIM" then parseUim env idx rest
  else if cmd = "#UP" then parseUp env idx rest
  else if cmd = "#ES" then parseEs env idx rest
  else if cmd = "#EV" then parseEv env idx rest
  else if cmd = "#EP" then parseEp env idx rest
  else if cmd = "#EL" then parseEl env idx rest
  else if cmd = "#EC" then parseEc env idx rest
  else if cmd = "#EA" then parseEa env idx rest
  else if cmd = "#EJ" then .error (.panic "not yet implemented: #EJ")
  else if cmd = "#ELN" then .error (.panic "not yet implemented: #ELN")
  else if cmd = "#ELS" then .error (.panic "not yet implemented: #ELS")
  else if cmd = "#EZ" then .error (.panic "not yet implemented: #EZ")
  else .error (.line "Unsupported index command")

/-- `parse_command` from parser.rs; the `todo!` arms panic. -/
def parseCommand (env : Environment) (cmd : String) (rest : List Char) :
    Except PErr Environment :=
  if cmd = "#DEF" then parseDef env rest
  else if cmd = "#AX" then .error (.panic "not yet implemented: #AX")
  else if cmd = "#IND" then parseInd env rest
  else if cmd = "#QUOT" then .error (.panic "not yet implemented: #QUOT")
  else if cmd = "#PREFIX" then .error (.panic "not yet implemented: #PREFIX")
  else if cmd = "#POSTFIX" then .error (.panic "not yet implemented: #POSTFIX")
  else if cmd = "#INFIX" then .error (.panic "not yet implemented: #INFIX")
  else .error (.line "Unsupported command")

/-- `parse_line` from parser.rs: an integer first token selects the
indexed-item commands, otherwise the top-level declaration commands. -/
def parseLine (env : Environment) (l : List Char) : Except PErr Environment := do
  let (first, rest) ← expectTok l "Expecting index or command"
  match parseUsize first with
  | some idx => parseIndexCommand env idx rest
  | none => parseCommand env first rest

/-- Whole-input outcomes: a `ParseError` carrying the 1-based line
number of the offending line, or an aborting panic (which carries no
input line number). -/
inductive TopErr where
  | parseError (lineNo : Nat) (msg : String)
  | panic (msg : String)
deriving DecidableEq

/-- Loop body of `parse_lines` from parser.rs. -/
def parseLinesAux (env : Environment) (lineNo : Nat) :
    List (List Char) → Except TopErr Environment
  | [] => .ok env
  | l :: ls =>
    match parseLine env l with
    | .ok e2 => parseLinesAux e2 (lineNo + 1) ls
    | .error (.line m) => .error (.parseError lineNo m)
    | .error (.panic m) => .error (.panic m)

/-- `parse_lines` from parser.rs: fresh environment, lines numbered
from 1. -/
def parseLines (ls : List (List Char)) : Except TopErr Environment :=
  parseLinesAux Environment.new 1 ls

/-- Arena states reachable from a fresh `Environment` by successful
insertion calls. -/
inductive Reachable : Environment → Prop where
  | new : Reachable Environment.new
  | addName {e e2 idx item parent} : Reachable e →
      addName e idx item parent = .ok e2 → Reachable e2
  | addLevelSucc {e e2 up u} : Reachable e →
      addLevelSucc e up u = .ok e2 → Reachable e2
  | addLevelMax {e e2 up u1 u2} : Reachable e →
      addLevelMax e up u1 u2 = .ok e2 → Reachable e2
  | addLevelImax {e e2 up u1 u2} : Reachable e →
      addLevelImax e up u1 u2 = .ok e2 → Reachable e2
  | addLevelParam {e e2 up n} : Reachable e →
      addLevelParam e up n = .ok e2 → Reachable e2
  | addExprSort {e e2 ep u} : Reachable e →
      addExprSort e ep u = .ok e2 → Reachable e2
  | addExprBoundVar {e e2 ep i} : Reachable e →
      addExprBoundVar e ep i = .ok e2 → Reachable e2
  | addExprPi {e e2 ep info n i1 i2} : Reachable e →
      addExprPi e ep info n i1 i2 = .ok e2 → Reachable e2
  | addExprLambda {e e2 ep info n i1 i2} : Reachable e →
      addExprLambda e ep info n i1 i2 = .ok e2 → Reachable e2
  | addExprConstant {e e2 ep n lvls} : Reachable e →
      addExprConstant e ep n lvls = .ok e2 → Reachable e2
  | addExprFunAppl {e e2 ep i1 i2} : Reachable e →
      addExprFunAppl e ep i1 i2 = .ok e2 → Reachable e2
  | addDefinition {e e2 nidx i1 i2 lns} : Reachable e →
      addDefinition e nidx i1 i2 lns = .ok e2 → Reachable e2
  | addInductive {e e2 params nidx eidx intros lns} : Reachable e →
      addInductive e params nidx eidx intros lns = .ok e2 → Reachable e2

/-- Well-founded parent chains in the name table: the chain from `idx`
reaches the sentinel 0 in finitely many steps, with every intermediate
index present in the table. -/
inductive NameWF (e : Environment) : Nat → Prop where
  | zero : NameWF e 0
  | step {idx : Nat} {n : Name} : e.names.lookup idx = some n →
      NameWF e n.parent → NameWF e idx

/-- Table extension: every stored entry of `e` is still stored in `e2`,
and the display flag agrees.  Every successful insertion extends the
environment in this sense. -/
structure Extends (e e2 : Environment) : Prop where
  names : ∀ k v, e.names.lookup k = some v → e2.names.lookup k = some v
  levels : ∀ k v, e.levels.lookup k = some v → e2.levels.lookup k = some v
  exprs : ∀ k v, e.exprs.lookup k = some v → e2.exprs.lookup k = some v
  decls : ∀ k v, e.decls.lookup k = some v → e2.decls.lookup k = some v
  svs : e2.show_var_stack = e.show_var_stack

/-- Reference validity of a stored declaration, exactly the checks its
insertion performed (for an Ind the declared name index itself is not
among them). -/
def DeclRefs (e : Environment) : Decl → Prop
  | .Def eidx1 eidx2 lns =>
      containsExpr e eidx1 = true ∧ containsExpr e eidx2 = true ∧
      ∀ n ∈ lns, containsName e n = true
  | .Ind _params eidx intros lns =>
      containsExpr e eidx = true ∧
      (∀ p ∈ intros, containsName e p.1 = true ∧ containsExpr e p.2 = true) ∧
      ∀ n ∈ lns, containsName e n = true

/-- Rendering invariant of the name table: every stored name renders
successfully with enough fuel. -/
def NamesOk (e : Environment) : Prop :=
  ∀ idx n, e.names.lookup idx = some n → ∃ k l, nameItemsAux e k idx = .ok l

/-- Rendering invariant of the level table. -/
def LevelsOk (e : Environment) : Prop :=
  ∀ idx l, e.levels.lookup idx = some l → ∃ k s, levelToString e k idx = .ok s

/-- Rendering invariant of the expression table: every stored expression
renders successfully under any binder stack and returns that stack
unchanged. -/
def ExprsOk (e : Environment) : Prop :=
  ∀ idx x, e.exprs.lookup idx = some x →
    ∀ st, ∃ k s, exprToStringHelp e k idx st = .ok (s, st)

/-- Reference invariant of the declaration table; for a Def the defined
name is also stored (its insertion checked it). -/
def DeclsOk (e : Environment) : Prop :=
  ∀ idx d, e.decls.lookup idx = some d →
    DeclRefs e d ∧ (∀ t b lns, d = Decl.Def t b lns → containsName e idx = true)

/-- Combined arena invariant established by every reachable state. -/
def EnvInv (e : Environment) : Prop :=
  NamesOk e ∧ LevelsOk e ∧ ExprsOk e ∧ DeclsOk e

/-- Concrete arena state: a fresh environment plus `Sort 0` stored at
expression index 1 (used to exercise add_inductive). -/
def eC1 : Environment :=
  { names := [], levels := [(0, Level.zero)], exprs := [(1, Expr.sort 0)], decls := [],
    show_var_stack := false }

/-- Concrete one-name arena state reached by `addName 1 "a" 0`. -/
def eSmall : Environment :=
  { names := [(1, { item := NameItem.str "a", parent := 0 })], levels := [(0, Level.zero)],
    exprs := [], decls := [], show_var_stack := false }

/-- Concrete arena state holding `BoundVar 0` at expression index 1. -/
def eBV : Environment :=
  { names := [], levels := [(0, Level.zero)], exprs := [(1, Expr.boundVar 0)], decls := [],
    show_var_stack := false }

/-- Builds the arena of the round-trip example of the spec: name 1 `n`,
name 2 `x`, `Sort 0` at expression 1, `BoundVar 0` at expression 2, the
default-info `Lambda(x, Sort 0, BoundVar 0)` at expression 3, and the
definition `n : Sort 0 := expr 3` with no level parameters. -/
def buildC5 : Except EnvError Environment := do
  let e ← addName Environment.new 1 (.str "n") 0
  let e ← addName e 2 (.str "x") 0
  let e ← addExprSort e 1 0
  let e ← addExprBoundVar e 2 0
  let e ← addExprLambda e 3 .default 2 1 2
  addDefinition e 1 1 3 []

/-- Builds an arena with a definition whose level-parameter list is the
non-empty list [2] where name 2 renders as the empty string. -/
def buildC5b : Except EnvError Environment := do
  let e ← addName Environment.new 1 (.str "n") 0
  let e ← addName e 2 (.str "") 0
  let e ← addExprSort e 1 0
  addDefinition e 1 1 1 [2]

/-- Builds an arena with an inductive declaration `N : Sort 0` having
two constructors `a : Sort 0` and `b : Sort 0`. -/
def buildC7 : Except EnvError Environment := do
  let e ← addName Environment.new 1 (.str "N") 0
  let e ← addName e 2 (.str "a") 0
  let e ← addName e 3 (.str "b") 0
  let e ← addExprSort e 1 0
  addInductive e 0 1 1 [(2, 1), (3, 1)] []

/-- The arena state produced by buildC5, written out. -/
def eC5 : Environment :=
  { names := [(2, { item := NameItem.str "x", parent := 0 }),
              (1, { item := NameItem.str "n", parent := 0 })],
    levels := [(0, Level.zero)],
    exprs := [(3, Expr.lambda BinderInfo.default 2 1 2), (2, Expr.boundVar 0),
              (1, Expr.sort 0)],
    decls := [(1, Decl.Def 1 3 [])],
    show_var_stack := false }

/-- The arena state produced by buildC7, written out. -/
def eC7 : Environment :=
  { names := [(3, { item := NameItem.str "b", parent := 0 }),
              (2, { item := NameItem.str "a", parent := 0 }),
              (1, { item := NameItem.str "N", parent := 0 })],
    levels := [(0, Level.zero)],
    exprs := [(1, Expr.sort 0)],
    decls := [(1, Decl.Ind 0 1 [(2, 1), (3, 1)] [])],
    show_var_stack := false }

/-! Theorems.  Claim-level theorems are named `cN_...` after the claim
ids; the remaining theorems are shared helper lemmas. -/

/-- C10: a fresh Environment has exactly Level::Zero at level index 0
and empty name/expression/declaration tables; render_level(0) already
renders as "0", and every level insertion targeting index 0 fails as a
duplicate insertion whatever its other arguments are. -/
theorem c10_fresh_environment :
    Environment.new.levels = [(0, Level.zero)] ∧
    Environment.new.names = [] ∧
    Environment.new.exprs = [] ∧
    Environment.new.decls = [] ∧
    levelToString Environment.new 1 0 = .ok "0" ∧
    (∀ u : Nat, addLevelSucc Environment.new 0 u = .error .duplicate) ∧
    (∀ u1 u2 : Nat, addLevelMax Environment.new 0 u1 u2 = .error .duplicate) ∧
    (∀ u1 u2 : Nat, addLevelImax Environment.new 0 u1 u2 = .error .duplicate) ∧
    (∀ n : Nat, addLevelParam Environment.new 0 n = .error .duplicate) :=
  ⟨rfl, rfl, rfl, rfl, rfl,
   fun _ => rfl, fun _ _ => rfl, fun _ _ => rfl, fun _ => rfl⟩

/-- C3: inserting at an index (for declarations: a defined name) already
present in its table fails with the duplicate-integrity error whatever
the rest of the payload is; the occupied-index check is the first check
of every insertion operation, so no table is touched. -/
theorem c3_duplicate_insertion_rejected :
    (∀ e idx item p, containsName e idx = true →
      addName e idx item p = .error .duplicate) ∧
    (∀ e up u, containsLevel e up = true →
      addLevelSucc e up u = .error .duplicate) ∧
    (∀ e up u1 u2, containsLevel e up = true →
      addLevelMax e up u1 u2 = .error .duplicate) ∧
    (∀ e up u1 u2, containsLevel e up = true →
      addLevelImax e up u1 u2 = .error .duplicate) ∧
    (∀ e up n, containsLevel e up = true →
      addLevelParam e up n = .error .duplicate) ∧
    (∀ e ep u, containsExpr e ep = true →
      addExprSort e ep u = .error .duplicate) ∧
    (∀ e ep i, containsExpr e ep = true →
      addExprBoundVar e ep i = .error .duplicate) ∧
    (∀ e ep info n i1 i2, containsExpr e ep = true →
      addExprPi e ep info n i1 i2 = .error .duplicate) ∧
    (∀ e ep info n i1 i2, containsExpr e ep = true →
      addExprLambda e ep info n i1 i2 = .error .duplicate) ∧
    (∀ e ep n lvls, containsExpr e ep = true →
      addExprConstant e ep n lvls = .error .duplicate) ∧
    (∀ e ep i1 i2, containsExpr e ep = true →
      addExprFunAppl e ep i1 i2 = .error .duplicate) ∧
    (∀ e nidx i1 i2 lns, containsDecl e nidx = true →
      addDefinition e nidx i1 i2 lns = .error .duplicate) ∧
    (∀ e params nidx eidx intros lns, containsDecl e nidx = true →
      addInductive e params nidx eidx intros lns = .error .duplicate) := by
  refine ⟨?_, ?_, ?_, ?_, ?_, ?_, ?_, ?_, ?_, ?_, ?_, ?_, ?_⟩ <;>
    intro e <;> intros <;> simp_all [addName, addLevelSucc, addLevelMax, addLevelImax,
      addLevelParam, addExprSort, addExprBoundVar, addExprPi, addExprLambda,
      addExprConstant, addExprFunAppl, addDefinition, addInductive]

/-- Witness for C3 at a concrete arena: name index 1 is occupied in
eSmall, so re-inserting it fails as a duplicate. -/
theorem c3_witness : addName eSmall 1 (NameItem.int 7) 0 = .error .duplicate :=
  c3_duplicate_insertion_rejected.1 eSmall 1 (NameItem.int 7) 0 (by rfl)

/-- C1 counterexample: add_inductive does not validate the defined name
index.  In the reachable arena eC1 (a fresh environment plus `Sort 0`
at expression index 1) the name index 5 is absent from the name table,
yet inserting an inductive declared at name index 5 succeeds. -/
theorem c1_counterexample :
    addExprSort Environment.new 1 0 = .ok eC1 ∧
    containsName eC1 5 = false ∧
    eC1.decls.lookup 5 = none ∧
    addInductive eC1 0 5 1 [] [] =
      .ok { eC1 with decls := [(5, Decl.Ind 0 1 [] [])] } :=
  ⟨rfl, rfl, rfl, rfl⟩

/-- C1 amended: every insertion operation fails when one of the embedded
references it validates is absent from its table (the checks precede the
insert, so the arena is unchanged) — with the one exception that
add_inductive never validates the defined name index itself: with all
its validated references present and no prior declaration at that index
it succeeds regardless of the name table. -/
theorem c1_missing_reference_rejected :
    (∀ e idx item p, p ≠ 0 → containsName e p = false →
      (addName e idx item p).isOk = false) ∧
    (∀ e up u, containsLevel e u = false → (addLevelSucc e up u).isOk = false) ∧
    (∀ e up u1 u2, containsLevel e u1 = false ∨ containsLevel e u2 = false →
      (addLevelMax e up u1 u2).isOk = false) ∧
    (∀ e up u1 u2, containsLevel e u1 = false ∨ containsLevel e u2 = false →
      (addLevelImax e up u1 u2).isOk = false) ∧
    (∀ e up n, containsName e n = false → (addLevelParam e up n).isOk = false) ∧
    (∀ e ep u, containsLevel e u = false → (addExprSort e ep u).isOk = false) ∧
    (∀ e ep info n i1 i2,
      containsName e n = false ∨ containsExpr e i1 = false ∨ containsExpr e i2 = false →
      (addExprPi e ep info n i1 i2).isOk = false) ∧
    (∀ e ep info n i1 i2,
      containsName e n = false ∨ containsExpr e i1 = false ∨ containsExpr e i2 = false →
      (addExprLambda e ep info n i1 i2).isOk = false) ∧
    (∀ e ep n lvls,
      containsName e n = false ∨ (∃ li ∈ lvls, containsLevel e li = false) →
      (addExprConstant e ep n lvls).isOk = false) ∧
    (∀ e ep i1 i2, containsExpr e i1 = false ∨ containsExpr e i2 = false →
      (addExprFunAppl e ep i1 i2).isOk = false) ∧
    (∀ e nidx i1 i2 lns,
      containsName e nidx = false ∨ containsExpr e i1 = false ∨ containsExpr e i2 = false ∨
        (∃ n ∈ lns, containsName e n = false) →
      (addDefinition e nidx i1 i2 lns).isOk = false) ∧
    (∀ e params nidx eidx intros lns,
      containsExpr e eidx = false ∨
        (∃ p ∈ intros, containsName e p.1 = false ∨ containsExpr e p.2 = false) ∨
        (∃ n ∈ lns, containsName e n = false) →
      (addInductive e params nidx eidx intros lns).isOk = false) ∧
    (∀ e params nidx eidx intros lns,
      containsDecl e nidx = false → containsExpr e eidx = true →
      (∀ p ∈ intros, containsName e p.1 = true ∧ containsExpr e p.2 = true) →
      (∀ n ∈ lns, containsName e n = true) →
      addInductive e params nidx eidx intros lns =
        .ok { e with decls := (nidx, Decl.Ind params eidx intros lns) :: e.decls }) := by
  refine ⟨?_, ?_, ?_, ?_, ?_, ?_, ?_, ?_, ?_, ?_, ?_, ?_, ?_⟩
  · intro e idx item p hp h
    cases hd : containsName e idx <;>
      simp_all [addName, Except.isOk, Except.toBool]
  · intro e up u h
    cases hd : containsLevel e up <;>
      simp_all [addLevelSucc, Except.isOk, Except.toBool]
  · intro e up u1 u2 h
    cases hd : containsLevel e up <;> cases h1 : containsLevel e u1 <;>
      cases h2 : containsLevel e u2 <;>
      simp_all [addLevelMax, Except.isOk, Except.toBool]
  · intro e up u1 u2 h
    cases hd : containsLevel e up <;> cases h1 : containsLevel e u1 <;>
      cases h2 : containsLevel e u2 <;>
      simp_all [addLevelImax, Except.isOk, Except.toBool]
  · intro e up n h
    cases hd : containsLevel e up <;>
      simp_all [addLevelParam, Except.isOk, Except.toBool]
  · intro e ep u h
    cases hd : containsExpr e ep <;>
      simp_all [addExprSort, Except.isOk, Except.toBool]
  · intro e ep info n i1 i2 h
    cases hd : containsExpr e ep <;> cases hn : containsName e n <;>
      cases h1 : containsExpr e i1 <;> cases h2 : containsExpr e i2 <;>
      simp_all [addExprPi, Except.isOk, Except.toBool]
  · intro e ep info n i1 i2 h
    cases hd : containsExpr e ep <;> cases hn : containsName e n <;>
      cases h1 : containsExpr e i1 <;> cases h2 : containsExpr e i2 <;>
      simp_all [addExprLambda, Except.isOk, Except.toBool]
  · intro e ep n lvls h
    cases hd : containsExpr e ep <;> cases hn : containsName e n <;>
      cases hl : lvls.all (containsLevel e) <;>
      simp_all [addExprConstant, Except.isOk, Except.toBool, List.all_eq_true]
  · intro e ep i1 i2 h
    cases hd : containsExpr e ep <;> cases h1 : containsExpr e i1 <;>
      cases h2 : containsExpr e i2 <;>
      simp_all [addExprFunAppl, Except.isOk, Except.toBool]
  · intro e nidx i1 i2 lns h
    cases hd : containsDecl e nidx <;> cases hn : containsName e nidx <;>
      cases h1 : containsExpr e i1 <;> cases h2 : containsExpr e i2 <;>
      cases hl : lns.all (containsName e) <;>
      simp_all [addDefinition, Except.isOk, Except.toBool, List.all_eq_true]
  · intro e params nidx eidx intros lns h
    cases hd : containsDecl e nidx <;> cases he : containsExpr e eidx <;>
      cases hi : intros.all (fun p => containsName e p.1 && containsExpr e p.2) <;>
      cases hl : lns.all (containsName e) <;>
      simp_all [addInductive, Except.isOk, Except.toBool, List.all_eq_true]
    all_goals
      exfalso
      rcases h with ⟨a, b, hm, hf⟩ | ⟨n, hm, hf⟩
      · have h3 := hi a b hm
        rcases hf with hf | hf
        · exact absurd h3.1 (by simp [hf])
        · exact absurd h3.2 (by simp [hf])
      · exact absurd (hl n hm) (by simp [hf])
  · intro e params nidx eidx intros lns hd he hi hl
    simp only [addInductive]
    rw [if_neg (by simp [hd]), if_neg (by simp [he])]
    have hall : intros.all (fun p => containsName e p.1 && containsExpr e p.2) = true := by
      rw [List.all_eq_true]
      intro p hp
      have := hi p hp
      simp [this.1, this.2]
    rw [if_neg (by simp [hall])]
    have hall2 : lns.all (containsName e) = true := by
      rw [List.all_eq_true]
      intro n hn
      simp [hl n hn]
    rw [if_neg (by simp [hall2])]

/-- Witness for C1 at concrete inputs: a succ level over the absent
level index 7 is rejected in a fresh environment. -/
theorem c1_witness : (addLevelSucc Environment.new 1 7).isOk = false :=
  c1_missing_reference_rejected.2.1 Environment.new 1 7 (by rfl)

/-- C2: rendering a stored BoundVar(i) under binder stack st yields the
name at position `st.length - 1 - i` from the bottom of the stack —
equivalently the i-th most recently pushed name, i.e. position i of the
reversed stack — when `i < st.length`, and the placeholder `"<i>"`
otherwise; no error is raised and the stack is returned unchanged in
both cases. -/
theorem c2_boundvar_resolution (e : Environment) (fuel i eidx : Nat) (st : List String)
    (h : e.exprs.lookup eidx = some (Expr.boundVar i)) :
    (i < st.length →
      exprToStringHelp e (fuel + 1) eidx st =
        .ok (st.getD (st.length - 1 - i) "", st) ∧
      st.getD (st.length - 1 - i) "" = st.reverse.getD i "") ∧
    (st.length ≤ i →
      exprToStringHelp e (fuel + 1) eidx st =
        .ok ("<" ++ toString i ++ ">", st)) := by
  constructor
  · intro hi
    constructor
    · simp [exprToStringHelp, h, hi]
    · rw [List.getD_eq_getElem?_getD, List.getD_eq_getElem?_getD,
        List.getElem?_reverse (by omega)]
  · intro hi
    simp [exprToStringHelp, h, Nat.not_lt.mpr hi]

/-- Witness for C2 at a concrete arena holding `BoundVar 0` at
expression index 1: under stack ["x"] it renders to "x" with the stack
preserved, and under the empty stack it renders to the placeholder
"<0>". -/
theorem c2_witness :
    exprToStringHelp eBV 1 1 ["x"] = .ok ("x", ["x"]) ∧
    exprToStringHelp eBV 1 1 [] = .ok ("<0>", []) := by
  constructor
  · exact ((c2_boundvar_resolution eBV 0 0 1 ["x"] (by rfl)).1 (by simp)).1
  · exact (c2_boundvar_resolution eBV 0 0 1 [] (by rfl)).2 (by simp)

/-- C9 counterexample: render_name applied to the sentinel index 0,
which is absent from the name table of a fresh environment, does not
fail — the collection loop exits immediately and it returns the empty
string. -/
theorem c9_counterexample :
    nameToString Environment.new 1 0 = .ok "" ∧
    Environment.new.names.lookup 0 = none :=
  ⟨rfl, rfl⟩

/-- C9 amended: each renderer fails with the not-found error when its
index is absent from its table — except render_name at index 0, which
returns the empty string (the parent-chain loop tests `idx != 0` before
looking anything up); render_name fails on every absent non-zero
index. -/
theorem c9_absent_index_rendering :
    (∀ e fuel idx, idx ≠ 0 → e.names.lookup idx = none →
      nameToString e (fuel + 1) idx = .error .notFound) ∧
    (∀ e fuel idx, e.levels.lookup idx = none →
      levelToString e (fuel + 1) idx = .error .notFound) ∧
    (∀ e fuel idx st, e.exprs.lookup idx = none →
      exprToStringHelp e (fuel + 1) idx st = .error .notFound) ∧
    (∀ e fuel idx, e.exprs.lookup idx = none →
      exprToString e (fuel + 1) idx = .error .notFound) ∧
    (∀ e fuel idx, e.decls.lookup idx = none →
      declToString e fuel idx = .error .notFound) ∧
    (∀ e fuel, nameToString e (fuel + 1) 0 = .ok "") := by
  refine ⟨?_, ?_, ?_, ?_, ?_, ?_⟩
  · intro e fuel idx h0 h
    simp [nameToString, nameItemsAux, h0, h, Except.map]
  · intro e fuel idx h
    simp [levelToString, h]
  · intro e fuel idx st h
    simp [exprToStringHelp, h]
  · intro e fuel idx h
    simp [exprToString, exprToStringHelp, h, Bind.bind, Except.bind]
  · intro e fuel idx h
    simp [declToString, h]
  · intro e fuel
    simp [nameToString, nameItemsAux, Except.map]
    rfl

/-- Witness for C9 amended: in a fresh environment index 7 is absent
from every table, so each renderer reports not-found, while index 0 on
the name side renders as the empty string. -/
theorem c9_witness :
    nameToString Environment.new 1 7 = .error .notFound ∧
    levelToString Environment.new 1 7 = .error .notFound ∧
    exprToStringHelp Environment.new 1 7 [] = .error .notFound ∧
    exprToString Environment.new 1 7 = .error .notFound ∧
    declToString Environment.new 1 7 = .error .notFound ∧
    nameToString Environment.new 1 0 = .ok "" :=
  ⟨c9_absent_index_rendering.1 Environment.new 0 7 (by decide) (by rfl),
   c9_absent_index_rendering.2.1 Environment.new 0 7 (by rfl),
   c9_absent_index_rendering.2.2.1 Environment.new 0 7 [] (by rfl),
   c9_absent_index_rendering.2.2.2.1 Environment.new 0 7 (by rfl),
   c9_absent_index_rendering.2.2.2.2.1 Environment.new 1 7 (by rfl),
   c9_absent_index_rendering.2.2.2.2.2 Environment.new 0⟩

/-- C6: for every command, once its complete grammar (fixed-arity
prefix plus any greedy or counted suffix) has been consumed, a remaining
token makes check_eol reject the line with the grammar error
"Expecting EOL" before the arena insertion is reached, so no entity is
inserted. -/
theorem c6_trailing_garbage_rejected :
    (∀ env idx s p r1 i r2 t r3, nextIdx s = some (p, r1) → nextIdx r1 = some (i, r2) →
      next r2 = some (t, r3) → parseNi env idx s = .error (.line "Expecting EOL")) ∧
    (∀ env idx s p r1 w r2 t r3, nextIdx s = some (p, r1) → next r1 = some (w, r2) →
      next r2 = some (t, r3) → parseNs env idx s = .error (.line "Expecting EOL")) ∧
    (∀ env idx s u r1 t r2, nextIdx s = some (u, r1) →
      next r1 = some (t, r2) → parseUs env idx s = .error (.line "Expecting EOL")) ∧
    (∀ env idx s u1 r1 u2 r2 t r3, nextIdx s = some (u1, r1) → nextIdx r1 = some (u2, r2) →
      next r2 = some (t, r3) → parseUm env idx s = .error (.line "Expecting EOL")) ∧
    (∀ env idx s u1 r1 u2 r2 t r3, nextIdx s = some (u1, r1) → nextIdx r1 = some (u2, r2) →
      next r2 = some (t, r3) → parseUim env idx s = .error (.line "Expecting EOL")) ∧
    (∀ env idx s n r1 t r2, nextIdx s = some (n, r1) →
      next r1 = some (t, r2) → parseUp env idx s = .error (.line "Expecting EOL")) ∧
    (∀ env idx s u r1 t r2, nextIdx s = some (u, r1) →
      next r1 = some (t, r2) → parseEs env idx s = .error (.line "Expecting EOL")) ∧
    (∀ env idx s i r1 t r2, nextIdx s = some (i, r1) →
      next r1 = some (t, r2) → parseEv env idx s = .error (.line "Expecting EOL")) ∧
    (∀ env idx s w r0 info n r1 i1 r2 i2 r3 t r4, next s = some (w, r0) →
      parseBinderInfo w = .ok info → nextIdx r0 = some (n, r1) → nextIdx r1 = some (i1, r2) →
      nextIdx r2 = some (i2, r3) → next r3 = some (t, r4) →
      parseEp env idx s = .error (.line "Expecting EOL")) ∧
    (∀ env idx s w r0 info n r1 i1 r2 i2 r3 t r4, next s = some (w, r0) →
      parseBinderInfo w = .ok info → nextIdx r0 = some (n, r1) → nextIdx r1 = some (i1, r2) →
      nextIdx r2 = some (i2, r3) → next r3 = some (t, r4) →
      parseEl env idx s = .error (.line "Expecting EOL")) ∧
    (∀ env idx s n r1 lvls r2 t r3, nextIdx s = some (n, r1) → munchIdxs r1 = (lvls, r2) →
      next r2 = some (t, r3) → parseEc env idx s = .error (.line "Expecting EOL")) ∧
    (∀ env idx s i1 r1 i2 r2 t r3, nextIdx s = some (i1, r1) → nextIdx r1 = some (i2, r2) →
      next r2 = some (t, r3) → parseEa env idx s = .error (.line "Expecting EOL")) ∧
    (∀ env s n r1 i1 r2 i2 r3 lns r4 t r5, nextIdx s = some (n, r1) →
      nextIdx r1 = some (i1, r2) → nextIdx r2 = some (i2, r3) → munchIdxs r3 = (lns, r4) →
      next r4 = some (t, r5) → parseDef env s = .error (.line "Expecting EOL")) ∧
    (∀ env s num r1 n r2 ei r3 ni r4 intros r5 lns r6 t r7, nextIdx s = some (num, r1) →
      nextIdx r1 = some (n, r2) → nextIdx r2 = some (ei, r3) → nextIdx r3 = some (ni, r4) →
      munchIntros ni r4 = .ok (intros, r5) → munchIdxs r5 = (lns, r6) →
      next r6 = some (t, r7) → parseInd env s = .error (.line "Expecting EOL")) := by
  refine ⟨?_, ?_, ?_, ?_, ?_, ?_, ?_, ?_, ?_, ?_, ?_, ?_, ?_, ?_⟩
  · intro env idx s p r1 i r2 t r3 h1 h2 h3
    simp [parseNi, expectIdx, checkEol, h1, h2, h3, Bind.bind, Except.bind]
  · intro env idx s p r1 w r2 t r3 h1 h2 h3
    simp [parseNs, expectIdx, expectTok, checkEol, h1, h2, h3, Bind.bind, Except.bind]
  · intro env idx s u r1 t r2 h1 h2
    simp [parseUs, expectIdx, checkEol, h1, h2, Bind.bind, Except.bind]
  · intro env idx s u1 r1 u2 r2 t r3 h1 h2 h3
    simp [parseUm, expectIdx, checkEol, h1, h2, h3, Bind.bind, Except.bind]
  · intro env idx s u1 r1 u2 r2 t r3 h1 h2 h3
    simp [parseUim, expectIdx, checkEol, h1, h2, h3, Bind.bind, Except.bind]
  · intro env idx s n r1 t r2 h1 h2
    simp [parseUp, expectIdx, checkEol, h1, h2, Bind.bind, Except.bind]
  · intro env idx s u r1 t r2 h1 h2
    simp [parseEs, expectIdx, checkEol, h1, h2, Bind.bind, Except.bind]
  · intro env idx s i r1 t r2 h1 h2
    simp [parseEv, expectIdx, checkEol, h1, h2, Bind.bind, Except.bind]
  · intro env idx s w r0 info n r1 i1 r2 i2 r3 t r4 h0 hinfo h1 h2 h3 h4
    simp [parseEp, expectIdx, expectTok, checkEol, h0, hinfo, h1, h2, h3, h4,
      Bind.bind, Except.bind]
  · intro env idx s w r0 info n r1 i1 r2 i2 r3 t r4 h0 hinfo h1 h2 h3 h4
    simp [parseEl, expectIdx, expectTok, checkEol, h0, hinfo, h1, h2, h3, h4,
      Bind.bind, Except.bind]
  · intro env idx s n r1 lvls r2 t r3 h1 hm h3
    simp [parseEc, expectIdx, checkEol, h1, hm, h3, Bind.bind, Except.bind]
  · intro env idx s i1 r1 i2 r2 t r3 h1 h2 h3
    simp [parseEa, expectIdx, checkEol, h1, h2, h3, Bind.bind, Except.bind]
  · intro env s n r1 i1 r2 i2 r3 lns r4 t r5 h1 h2 h3 hm h5
    simp [parseDef, expectIdx, checkEol, h1, h2, h3, hm, h5, Bind.bind, Except.bind]
  · intro env s num r1 n r2 ei r3 ni r4 intros r5 lns r6 t r7 h1 h2 h3 h4 hmi hm h7
    simp [parseInd, expectIdx, checkEol, h1, h2, h3, h4, hmi, hm, h7, Bind.bind, Except.bind]

/-- Witness for C6 at concrete lines: an #EA line and an #NS line whose
grammar is complete but which carry one extra token are rejected by
check_eol. -/
theorem c6_witness :
    parseEa Environment.new 1 (" 7 8 x".toList) = .error (.line "Expecting EOL") ∧
    parseNs Environment.new 1 (" 0 foo bar".toList) = .error (.line "Expecting EOL") := by
  constructor
  · exact c6_trailing_garbage_rejected.2.2.2.2.2.2.2.2.2.2.2.1 Environment.new 1
      (" 7 8 x".toList) 7 (" 8 x".toList) 8 (" x".toList) "x" [] (by rfl) (by rfl) (by rfl)
  · exact c6_trailing_garbage_rejected.2.1 Environment.new 1
      (" 0 foo bar".toList) 0 (" foo bar".toList) "foo" (" bar".toList) "bar" []
      (by rfl) (by rfl) (by rfl)

/-- C8 counterexample: the recognized-but-unsupported tag #EJ on line 1
aborts with a `todo!` panic that carries only the "not yet implemented"
message — it is not surfaced as a line-numbered parse error, contrary to
the claim. -/
theorem c8_counterexample :
    parseLines ["1 #EJ".toList] = .error (.panic "not yet implemented: #EJ") ∧
    ∀ k m, parseLines ["1 #EJ".toList] ≠ .error (.parseError k m) := by
  constructor
  · rfl
  · intro k m hcontra
    rw [show parseLines ["1 #EJ".toList] = .error (.panic "not yet implemented: #EJ")
      from rfl] at hcontra
    simp at hcontra

/-- C8 amended: a structurally recognized but semantically unsupported
tag (#EJ, #ELN, #ELS, #EZ among indexed tags; #AX, #QUOT, #PREFIX,
#POSTFIX, #INFIX among top-level tags) aborts processing immediately
with the `todo!` panic message for that tag and no input line number,
before any entity is inserted; an unrecognized tag aborts with an
"Unsupported … command" error surfaced with the originating 1-based
line number; line errors and panics both abort the remaining input
immediately. -/
theorem c8_unsupported_and_unknown_tags :
    (∀ env idx s r, next s = some ("#EJ", r) →
      parseIndexCommand env idx s = .error (.panic "not yet implemented: #EJ")) ∧
    (∀ env idx s r, next s = some ("#ELN", r) →
      parseIndexCommand env idx s = .error (.panic "not yet implemented: #ELN")) ∧
    (∀ env idx s r, next s = some ("#ELS", r) →
      parseIndexCommand env idx s = .error (.panic "not yet implemented: #ELS")) ∧
    (∀ env idx s r, next s = some ("#EZ", r) →
      parseIndexCommand env idx s = .error (.panic "not yet implemented: #EZ")) ∧
    (∀ env s, parseCommand env "#AX" s = .error (.panic "not yet implemented: #AX")) ∧
    (∀ env s, parseCommand env "#QUOT" s = .error (.panic "not yet implemented: #QUOT")) ∧
    (∀ env s, parseCommand env "#PREFIX" s = .error (.panic "not yet implemented: #PREFIX")) ∧
    (∀ env s, parseCommand env "#POSTFIX" s = .error (.panic "not yet implemented: #POSTFIX")) ∧
    (∀ env s, parseCommand env "#INFIX" s = .error (.panic "not yet implemented: #INFIX")) ∧
    (∀ env idx s t r, next s = some (t, r) →
      t ∉ ["#NI", "#NS", "#US", "#UM", "#UIM", "#UP", "#ES", "#EV", "#EP", "#EL",
           "#EC", "#EA", "#EJ", "#ELN", "#ELS", "#EZ"] →
      parseIndexCommand env idx s = .error (.line "Unsupported index command")) ∧
    (∀ env t s, t ∉ ["#DEF", "#AX", "#IND", "#QUOT", "#PREFIX", "#POSTFIX", "#INFIX"] →
      parseCommand env t s = .error (.line "Unsupported command")) ∧
    (∀ env n l ls m, parseLine env l = .error (.line m) →
      parseLinesAux env n (l :: ls) = .error (.parseError n m)) ∧
    (∀ env n l ls m, parseLine env l = .error (.panic m) →
      parseLinesAux env n (l :: ls) = .error (.panic m)) := by
  refine ⟨?_, ?_, ?_, ?_, ?_, ?_, ?_, ?_, ?_, ?_, ?_, ?_, ?_⟩
  · intro env idx s r h
    simp [parseIndexCommand, expectTok, h, Bind.bind, Except.bind]
  · intro env idx s r h
    simp [parseIndexCommand, expectTok, h, Bind.bind, Except.bind]
  · intro env idx s r h
    simp [parseIndexCommand, expectTok, h, Bind.bind, Except.bind]
  · intro env idx s r h
    simp [parseIndexCommand, expectTok, h, Bind.bind, Except.bind]
  · intro env s
    rfl
  · intro env s
    rfl
  · intro env s
    rfl
  · intro env s
    rfl
  · intro env s
    rfl
  · intro env idx s t r h hmem
    simp only [List.mem_cons, List.mem_singleton, not_or] at hmem
    obtain ⟨e1, e2, e3, e4, e5, e6, e7, e8, e9, e10, e11, e12, e13, e14, e15, e16, -⟩ := hmem
    simp [parseIndexCommand, expectTok, h, Bind.bind, Except.bind,
      e1, e2, e3, e4, e5, e6, e7, e8, e9, e10, e11, e12, e13, e14, e15, e16]
  · intro env t s hmem
    simp only [List.mem_cons, List.mem_singleton, not_or] at hmem
    obtain ⟨e1, e2, e3, e4, e5, e6, e7, -⟩ := hmem
    simp [parseCommand, e1, e2, e3, e4, e5, e6, e7]
  · intro env n l ls m h
    simp [parseLinesAux, h]
  · intro env n l ls m h
    simp [parseLinesAux, h]

/-- Witness for C8 amended at concrete inputs: an #EJ line panics
without a line number, and an unknown indexed tag on the second line of
a stream is surfaced as a parse error at line 2. -/
theorem c8_witness :
    parseIndexCommand Environment.new 1 (" #EJ".toList) =
      .error (.panic "not yet implemented: #EJ") ∧
    parseLinesAux Environment.new 2 ["1 #XX".toList] =
      .error (.parseError 2 "Unsupported index command") := by
  constructor
  · exact c8_unsupported_and_unknown_tags.1 Environment.new 1 (" #EJ".toList) [] (by rfl)
  · exact c8_unsupported_and_unknown_tags.2.2.2.2.2.2.2.2.2.2.2.1 Environment.new 2
      ("1 #XX".toList) [] "Unsupported index command" (by rfl)

/-- C5 counterexample: the round-trip example of the spec renders with
the closing binder delimiter before the comma — "(x : Sort 0), x", not
"(x : Sort 0, x)" — and a definition whose non-empty level-parameter
list [2] renders without any ".{...}" clause because name 2 renders as
the empty string. -/
theorem c5_counterexample :
    buildC5.map (fun e => declToString e 9 1) =
      .ok (.ok "definition n Sort 0 := (x : Sort 0), x") ∧
    "definition n Sort 0 := (x : Sort 0), x" ≠
      "definition n Sort 0 := (x : Sort 0, x)" ∧
    buildC5b.map (fun e => e.decls.lookup 1) = .ok (some (Decl.Def 1 1 [2])) ∧
    buildC5b.map (fun e => declToString e 9 1) = .ok (.ok "definition n Sort 0 := Sort 0") ∧
    "definition n Sort 0 := Sort 0" ≠
      "definition n" ++ ".\x7b" ++ "\x7d" ++ " Sort 0 := Sort 0" :=
  ⟨rfl, by decide, rfl, rfl, by decide⟩

/-- C5 amended: the spec's round-trip example renders as
"definition <name> Sort 0 := (x : Sort 0), x" (closing delimiter before
the comma), and in general a rendered Definition carries the ".{...}"
level-parameter clause if and only if the comma-join of the rendered
level-parameter names is non-empty (a non-empty list of name indices
whose renderings join to the empty string produces no clause). -/
theorem c5_definition_rendering :
    (buildC5.map (fun e => declToString e 9 1) =
      .ok (.ok "definition n Sort 0 := (x : Sort 0), x")) ∧
    (∀ e fuel nidx e1 e2 lns name strs ty bd,
      e.decls.lookup nidx = some (Decl.Def e1 e2 lns) →
      nameToString e fuel nidx = .ok name →
      mapRender (nameToString e fuel) lns = .ok strs →
      exprToString e fuel e1 = .ok ty →
      exprToString e fuel e2 = .ok bd →
      declToString e fuel nidx =
        .ok ("definition " ++ name ++
          (if String.intercalate "," strs = "" then ""
           else ".\x7b" ++ String.intercalate "," strs ++ "\x7d") ++
          " " ++ ty ++ " := " ++ bd)) := by
  constructor
  · rfl
  · intro e fuel nidx e1 e2 lns name strs ty bd hd hn hs ht hb
    simp [declToString, defToString, hd, hn, hs, ht, hb, Bind.bind, Except.bind, pure,
      Except.pure]

/-- Witness for C5 amended at the concrete arena eC5 (the state built
by buildC5). -/
theorem c5_witness :
    buildC5 = .ok eC5 ∧
    declToString eC5 9 1 = .ok "definition n Sort 0 := (x : Sort 0), x" := by
  constructor
  · rfl
  · have h := c5_definition_rendering.2 eC5 9 1 1 3 [] "n" [] "Sort 0" "(x : Sort 0), x"
      (by rfl) (by rfl) (by rfl) (by rfl) (by rfl)
    simpa using h

/-- C7 counterexample: with two constructors the introduction-rule lines
are joined with a single space, so every line but the last carries a
trailing space — the rendering is not the plain concatenation of
"| c : T" lines the claim states. -/
theorem c7_counterexample :
    buildC7.map (fun e => declToString e 9 1) =
      .ok (.ok "inductive N Sort 0\n| a : Sort 0 \n| b : Sort 0") ∧
    "inductive N Sort 0\n| a : Sort 0 \n| b : Sort 0" ≠
      "inductive N Sort 0\n| a : Sort 0\n| b : Sort 0" :=
  ⟨rfl, by decide⟩

/-- C7 amended: a stored Inductive renders as "inductive <name>" plus a
" {...}" level-parameter clause when the comma-join of the rendered
level parameters is non-empty, a space and the rendered type, followed
by one "\n| <ctor> : <type>" segment per constructor in constructor
order, the segments joined with a single space (so all but the last
line end in a space); constructor names and types are rendered by the
same name/expression renderers as the head. -/
theorem c7_inductive_rendering :
    ∀ e fuel nidx params eidx intros lns name ty strs lines,
      e.decls.lookup nidx = some (Decl.Ind params eidx intros lns) →
      nameToString e fuel nidx = .ok name →
      exprToString e fuel eidx = .ok ty →
      mapRender (nameToString e fuel) lns = .ok strs →
      mapRender (introLineRender e fuel) intros = .ok lines →
      declToString e fuel nidx =
        .ok ("inductive " ++ name ++
          (if String.intercalate "," strs = "" then ""
           else " \x7b" ++ String.intercalate "," strs ++ "\x7d") ++
          " " ++ ty ++ String.intercalate " " lines) := by
  intro e fuel nidx params eidx intros lns name ty strs lines hd hn ht hs hi
  simp [declToString, indToString, hd, hn, ht, hs, hi, Bind.bind, Except.bind, pure,
    Except.pure]

/-- Witness for C7 amended at the concrete arena eC7 (the state built
by buildC7). -/
theorem c7_witness :
    buildC7 = .ok eC7 ∧
    declToString eC7 9 1 = .ok "inductive N Sort 0\n| a : Sort 0 \n| b : Sort 0" := by
  constructor
  · rfl
  · have h := c7_inductive_rendering eC7 9 1 0 1 [(2, 1), (3, 1)] [] "N" "Sort 0" []
      ["\n| a : Sort 0", "\n| b : Sort 0"] (by rfl) (by rfl) (by rfl) (by rfl) (by rfl)
    simpa using h

/-- Lookup in a table extended at a fresh key still finds every old
entry. -/
theorem lookup_cons_preserve {α : Type} {t : List (Nat × α)} {idx k : Nat} {v w : α}
    (hfresh : t.lookup idx = none) (h : t.lookup k = some v) :
    ((idx, w) :: t).lookup k = some v := by
  have hk : k ≠ idx := by
    rintro rfl
    rw [h] at hfresh
    cases hfresh
  have hb : (k == idx) = false := by simp [hk]
  simpa [List.lookup, hb] using h

/-- Lookup in a table extended by one entry is the new entry or an old
one. -/
theorem lookup_cons_cases {α : Type} {t : List (Nat × α)} {idx k : Nat} {v w : α}
    (h : ((idx, w) :: t).lookup k = some v) :
    (k = idx ∧ v = w) ∨ (k ≠ idx ∧ t.lookup k = some v) := by
  by_cases hk : k = idx
  · subst hk
    simp [List.lookup] at h
    exact Or.inl ⟨rfl, h.symm⟩
  · have hb : (k == idx) = false := by simp [hk]
    simp [List.lookup, hb] at h
    exact Or.inr ⟨hk, h⟩

/-- A Bool contains-test certifies a successful lookup. -/
theorem lookup_of_contains {α : Type} {t : List (Nat × α)} {k : Nat}
    (h : (t.lookup k).isSome = true) : ∃ v, t.lookup k = some v :=
  Option.isSome_iff_exists.mp h

/-- Success characterization of add_name. -/
theorem addName_ok_eq {e e2 : Environment} {idx : Nat} {item : NameItem} {p : Nat}
    (h : addName e idx item p = .ok e2) :
    containsName e idx = false ∧ (p = 0 ∨ containsName e p = true) ∧
    e2 = { e with names := (idx, { item := item, parent := p }) :: e.names } := by
  cases hd : containsName e idx <;> cases hp : containsName e p <;>
    by_cases hz : p = 0 <;> simp_all [addName]

/-- Success characterization of add_level_succ. -/
theorem addLevelSucc_ok_eq {e e2 : Environment} {up u : Nat}
    (h : addLevelSucc e up u = .ok e2) :
    containsLevel e up = false ∧ containsLevel e u = true ∧
    e2 = { e with levels := (up, Level.succ u) :: e.levels } := by
  cases hd : containsLevel e up <;> cases hu : containsLevel e u <;>
    simp_all [addLevelSucc]

/-- Success characterization of add_level_max. -/
theorem addLevelMax_ok_eq {e e2 : Environment} {up u1 u2 : Nat}
    (h : addLevelMax e up u1 u2 = .ok e2) :
    containsLevel e up = false ∧ containsLevel e u1 = true ∧ containsLevel e u2 = true ∧
    e2 = { e with levels := (up, Level.max u1 u2) :: e.levels } := by
  cases hd : containsLevel e up <;> cases h1 : containsLevel e u1 <;>
    cases h2 : containsLevel e u2 <;> simp_all [addLevelMax]

/-- Success characterization of add_level_imax. -/
theorem addLevelImax_ok_eq {e e2 : Environment} {up u1 u2 : Nat}
    (h : addLevelImax e up u1 u2 = .ok e2) :
    containsLevel e up = false ∧ containsLevel e u1 = true ∧ containsLevel e u2 = true ∧
    e2 = { e with levels := (up, Level.imax u1 u2) :: e.levels } := by
  cases hd : containsLevel e up <;> cases h1 : containsLevel e u1 <;>
    cases h2 : containsLevel e u2 <;> simp_all [addLevelImax]

/-- Success characterization of add_level_param. -/
theorem addLevelParam_ok_eq {e e2 : Environment} {up n : Nat}
    (h : addLevelParam e up n = .ok e2) :
    containsLevel e up = false ∧ containsName e n = true ∧
    e2 = { e with levels := (up, Level.param n) :: e.levels } := by
  cases hd : containsLevel e up <;> cases hn : containsName e n <;>
    simp_all [addLevelParam]

/-- Success characterization of add_expr_sort. -/
theorem addExprSort_ok_eq {e e2 : Environment} {ep u : Nat}
    (h : addExprSort e ep u = .ok e2) :
    containsExpr e ep = false ∧ containsLevel e u = true ∧
    e2 = { e with exprs := (ep, Expr.sort u) :: e.exprs } := by
  cases hd : containsExpr e ep <;> cases hu : containsLevel e u <;>
    simp_all [addExprSort]

/-- Success characterization of add_expr_bound_var. -/
theorem addExprBoundVar_ok_eq {e e2 : Environment} {ep i : Nat}
    (h : addExprBoundVar e ep i = .ok e2) :
    containsExpr e ep = false ∧
    e2 = { e with exprs := (ep, Expr.boundVar i) :: e.exprs } := by
  cases hd : containsExpr e ep <;> simp_all [addExprBoundVar]

/-- Success characterization of add_expr_pi. -/
theorem addExprPi_ok_eq {e e2 : Environment} {ep : Nat} {info : BinderInfo} {n i1 i2 : Nat}
    (h : addExprPi e ep info n i1 i2 = .ok e2) :
    containsExpr e ep = false ∧ containsName e n = true ∧
    containsExpr e i1 = true ∧ containsExpr e i2 = true ∧
    e2 = { e with exprs := (ep, Expr.pi info n i1 i2) :: e.exprs } := by
  cases hd : containsExpr e ep <;> cases hn : containsName e n <;>
    cases h1 : containsExpr e i1 <;> cases h2 : containsExpr e i2 <;>
    simp_all [addExprPi]

/-- Success characterization of add_expr_lambda. -/
theorem addExprLambda_ok_eq {e e2 : Environment} {ep : Nat} {info : BinderInfo} {n i1 i2 : Nat}
    (h : addExprLambda e ep info n i1 i2 = .ok e2) :
    containsExpr e ep = false ∧ containsName e n = true ∧
    containsExpr e i1 = true ∧ containsExpr e i2 = true ∧
    e2 = { e with exprs := (ep, Expr.lambda info n i1 i2) :: e.exprs } := by
  cases hd : containsExpr e ep <;> cases hn : containsName e n <;>
    cases h1 : containsExpr e i1 <;> cases h2 : containsExpr e i2 <;>
    simp_all [addExprLambda]

/-- Success characterization of add_expr_constant. -/
theorem addExprConstant_ok_eq {e e2 : Environment} {ep n : Nat} {lvls : List Nat}
    (h : addExprConstant e ep n lvls = .ok e2) :
    containsExpr e ep = false ∧ containsName e n = true ∧
    (∀ li ∈ lvls, containsLevel e li = true) ∧
    e2 = { e with exprs := (ep, Expr.constant n lvls) :: e.exprs } := by
  cases hd : containsExpr e ep <;> cases hn : containsName e n <;>
    cases hl : lvls.all (containsLevel e) <;>
    simp_all [addExprConstant, List.all_eq_true]

/-- Success characterization of add_expr_funappl. -/
theorem addExprFunAppl_ok_eq {e e2 : Environment} {ep i1 i2 : Nat}
    (h : addExprFunAppl e ep i1 i2 = .ok e2) :
    containsExpr e ep = false ∧ containsExpr e i1 = true ∧ containsExpr e i2 = true ∧
    e2 = { e with exprs := (ep, Expr.funAppl i1 i2) :: e.exprs } := by
  cases hd : containsExpr e ep <;> cases h1 : containsExpr e i1 <;>
    cases h2 : containsExpr e i2 <;> simp_all [addExprFunAppl]

/-- Success characterization of add_definition. -/
theorem addDefinition_ok_eq {e e2 : Environment} {nidx i1 i2 : Nat} {lns : List Nat}
    (h : addDefinition e nidx i1 i2 lns = .ok e2) :
    containsDecl e nidx = false ∧ containsName e nidx = true ∧
    containsExpr e i1 = true ∧ containsExpr e i2 = true ∧
    (∀ n ∈ lns, containsName e n = true) ∧
    e2 = { e with decls := (nidx, Decl.Def i1 i2 lns) :: e.decls } := by
  cases hd : containsDecl e nidx <;> cases hn : containsName e nidx <;>
    cases h1 : containsExpr e i1 <;> cases h2 : containsExpr e i2 <;>
    cases hl : lns.all (containsName e) <;>
    simp_all [addDefinition, List.all_eq_true]

/-- Success characterization of add_inductive (note: no check on the
defined name index). -/
theorem addInductive_ok_eq {e e2 : Environment} {params nidx eidx : Nat}
    {intros : List (Nat × Nat)} {lns : List Nat}
    (h : addInductive e params nidx eidx intros lns = .ok e2) :
    containsDecl e nidx = false ∧ containsExpr e eidx = true ∧
    (∀ p ∈ intros, containsName e p.1 = true ∧ containsExpr e p.2 = true) ∧
    (∀ n ∈ lns, containsName e n = true) ∧
    e2 = { e with decls := (nidx, Decl.Ind params eidx intros lns) :: e.decls } := by
  cases hd : containsDecl e nidx <;> cases he : containsExpr e eidx <;>
    cases hi : intros.all (fun p => containsName e p.1 && containsExpr e p.2) <;>
    cases hl : lns.all (containsName e) <;>
    simp_all [addInductive, List.all_eq_true]
  intro a b hm
  exact hi a b hm

/-- Extending the name table at a fresh key is a table extension. -/
theorem extends_names_cons {e : Environment} {idx : Nat} {n : Name}
    (hfresh : e.names.lookup idx = none) :
    Extends e { e with names := (idx, n) :: e.names } :=
  ⟨fun _ _ h => lookup_cons_preserve hfresh h, fun _ _ h => h, fun _ _ h => h,
   fun _ _ h => h, rfl⟩

/-- Extending the level table at a fresh key is a table extension. -/
theorem extends_levels_cons {e : Environment} {idx : Nat} {l : Level}
    (hfresh : e.levels.lookup idx = none) :
    Extends e { e with levels := (idx, l) :: e.levels } :=
  ⟨fun _ _ h => h, fun _ _ h => lookup_cons_preserve hfresh h, fun _ _ h => h,
   fun _ _ h => h, rfl⟩

/-- Extending the expression table at a fresh key is a table
extension. -/
theorem extends_exprs_cons {e : Environment} {idx : Nat} {x : Expr}
    (hfresh : e.exprs.lookup idx = none) :
    Extends e { e with exprs := (idx, x) :: e.exprs } :=
  ⟨fun _ _ h => h, fun _ _ h => h, fun _ _ h => lookup_cons_preserve hfresh h,
   fun _ _ h => h, rfl⟩

/-- Extending the declaration table at a fresh key is a table
extension. -/
theorem extends_decls_cons {e : Environment} {idx : Nat} {d : Decl}
    (hfresh : e.decls.lookup idx = none) :
    Extends e { e with decls := (idx, d) :: e.decls } :=
  ⟨fun _ _ h => h, fun _ _ h => h, fun _ _ h => h,
   fun _ _ h => lookup_cons_preserve hfresh h, rfl⟩

/-- A Bool contains-test on the name table transports along a table
extension. -/
theorem containsName_extends {e e2 : Environment} (hx : Extends e e2) {i : Nat}
    (h : containsName e i = true) : containsName e2 i = true := by
  obtain ⟨v, hv⟩ := lookup_of_contains h
  simp [containsName, hx.names i v hv]

/-- A Bool contains-test on the level table transports along a table
extension. -/
theorem containsLevel_extends {e e2 : Environment} (hx : Extends e e2) {i : Nat}
    (h : containsLevel e i = true) : containsLevel e2 i = true := by
  obtain ⟨v, hv⟩ := lookup_of_contains h
  simp [containsLevel, hx.levels i v hv]

/-- A Bool contains-test on the expression table transports along a
table extension. -/
theorem containsExpr_extends {e e2 : Environment} (hx : Extends e e2) {i : Nat}
    (h : containsExpr e i = true) : containsExpr e2 i = true := by
  obtain ⟨v, hv⟩ := lookup_of_contains h
  simp [containsExpr, hx.exprs i v hv]

/-- Declaration reference validity transports along a table
extension. -/
theorem declRefs_extends {e e2 : Environment} (hx : Extends e e2) {d : Decl}
    (h : DeclRefs e d) : DeclRefs e2 d := by
  cases d with
  | Def t b lns =>
    exact ⟨containsExpr_extends hx h.1, containsExpr_extends hx h.2.1,
      fun n hn => containsName_extends hx (h.2.2 n hn)⟩
  | Ind params t intros lns =>
    exact ⟨containsExpr_extends hx h.1,
      fun p hp => ⟨containsName_extends hx (h.2.1 p hp).1,
        containsExpr_extends hx (h.2.1 p hp).2⟩,
      fun n hn => containsName_extends hx (h.2.2 n hn)⟩

theorem mapRender_ok_congr {α β : Type} {f g : α → Except RenderErr β}
    (hfg : ∀ a y, f a = .ok y → g a = .ok y) :
    ∀ {l : List α} {ys : List β}, mapRender f l = .ok ys → mapRender g l = .ok ys := by
  intro l
  induction l with
  | nil => intro ys h; simpa [mapRender] using h
  | cons a l ih =>
    intro ys h
    simp only [mapRender, Bind.bind, Except.bind] at h ⊢
    cases hfa : f a with
    | error err => simp [hfa] at h
    | ok y =>
      simp only [hfa] at h
      rw [hfg a y hfa]
      cases hml : mapRender f l with
      | error err => simp [hml] at h
      | ok ys0 =>
        simp only [hml] at h
        rw [ih hml]
        exact h

theorem nameItemsAux_mono {e : Environment} :
    ∀ {k k2 idx l}, nameItemsAux e k idx = .ok l → k ≤ k2 → nameItemsAux e k2 idx = .ok l := by
  intro k
  induction k with
  | zero => intro k2 idx l h _; simp [nameItemsAux] at h
  | succ k ih =>
    intro k2 idx l h hle
    obtain ⟨k2', rfl⟩ : ∃ k2', k2 = k2' + 1 := ⟨k2 - 1, by omega⟩
    by_cases h0 : idx = 0
    · subst h0
      simpa [nameItemsAux] using h
    · simp only [nameItemsAux, if_neg h0] at h ⊢
      cases hl : e.names.lookup idx with
      | none => simp [hl] at h
      | some n =>
        simp only [hl] at h ⊢
        cases hr : nameItemsAux e k n.parent with
        | error err => simp [hr, Except.map] at h
        | ok l0 =>
          simp only [hr, Except.map] at h
          rw [ih hr (by omega)]
          simpa [Except.map] using h

theorem nameToString_mono {e : Environment} {k k2 idx : Nat} {s : String}
    (h : nameToString e k idx = .ok s) (hle : k ≤ k2) : nameToString e k2 idx = .ok s := by
  simp only [nameToString] at h ⊢
  cases hr : nameItemsAux e k idx with
  | error err => simp [hr, Except.map] at h
  | ok l =>
    simp only [hr, Except.map] at h
    rw [nameItemsAux_mono hr hle]
    simpa [Except.map] using h

theorem levelToString_mono {e : Environment} :
    ∀ {k k2 idx s}, levelToString e k idx = .ok s → k ≤ k2 → levelToString e k2 idx = .ok s := by
  intro k
  induction k with
  | zero => intro k2 idx s h _; simp [levelToString] at h
  | succ k ih =>
    intro k2 idx s h hle
    obtain ⟨k2', rfl⟩ : ∃ k2', k2 = k2' + 1 := ⟨k2 - 1, by omega⟩
    simp only [levelToString] at h ⊢
    cases hl : e.levels.lookup idx with
    | none => simp [hl] at h
    | some lv =>
      simp only [hl] at h ⊢
      cases lv with
      | zero => exact h
      | succ u =>
        dsimp only at h ⊢
        cases hr : levelToString e k u with
        | error err => simp [hr, Except.map] at h
        | ok s0 =>
          simp only [hr, Except.map] at h
          rw [ih hr (by omega)]
          simpa [Except.map] using h
      | max u1 u2 =>
        dsimp only at h ⊢
        simp only [Bind.bind, Except.bind] at h ⊢
        cases h1 : levelToString e k u1 with
        | error err => simp [h1] at h
        | ok s1 =>
          simp only [h1] at h
          rw [ih h1 (by omega)]
          cases h2 : levelToString e k u2 with
          | error err => simp [h2] at h
          | ok s2 =>
            simp only [h2] at h
            rw [ih h2 (by omega)]
            exact h
      | imax u1 u2 =>
        dsimp only at h ⊢
        simp only [Bind.bind, Except.bind] at h ⊢
        cases h1 : levelToString e k u1 with
        | error err => simp [h1] at h
        | ok s1 =>
          simp only [h1] at h
          rw [ih h1 (by omega)]
          cases h2 : levelToString e k u2 with
          | error err => simp [h2] at h
          | ok s2 =>
            simp only [h2] at h
            rw [ih h2 (by omega)]
            exact h
      | param n =>
        dsimp only at h ⊢
        exact nameToString_mono h (by omega)



theorem exprHelp_mono {e : Environment} :
    ∀ {k k2 eidx st s st2}, exprToStringHelp e k eidx st = .ok (s, st2) → k ≤ k2 →
      exprToStringHelp e k2 eidx st = .ok (s, st2) := by
  intro k
  induction k with
  | zero => intro k2 eidx st s st2 h _; simp [exprToStringHelp] at h
  | succ k ih =>
    intro k2 eidx st s st2 h hle
    obtain ⟨k2', rfl⟩ : ∃ k2', k2 = k2' + 1 := ⟨k2 - 1, by omega⟩
    simp only [exprToStringHelp] at h ⊢
    cases hl : e.exprs.lookup eidx with
    | none => simp [hl] at h
    | some x =>
      simp only [hl] at h ⊢
      cases x with
      | boundVar i =>
        dsimp only at h ⊢
        exact h
      | sort u =>
        dsimp only at h ⊢
        cases hr : levelToString e k u with
        | error err => simp [hr, Except.map] at h
        | ok s0 =>
          simp only [hr, Except.map] at h
          rw [levelToString_mono hr (by omega)]
          simpa [Except.map] using h
      | constant n lvls =>
        dsimp only at h ⊢
        simp only [Bind.bind, Except.bind] at h ⊢
        cases hn : nameToString e k n with
        | error err => simp [hn] at h
        | ok name =>
          simp only [hn] at h
          rw [nameToString_mono hn (by omega)]
          cases hemp : lvls.isEmpty with
          | true => simp_all
          | false =>
            simp only [hemp, Bool.false_eq_true, if_false] at h
            dsimp only
            simp only [Bool.false_eq_true, if_false]
            cases hm : mapRender (levelToString e k) lvls with
            | error err => simp [hm] at h
            | ok strs =>
              simp only [hm] at h
              rw [mapRender_ok_congr (fun a y hy => levelToString_mono hy (by omega)) hm]
              exact h
      | funAppl fe be =>
        dsimp only at h ⊢
        simp only [Bind.bind, Except.bind] at h ⊢
        cases h1 : exprToStringHelp e k fe st with
        | error err => simp [h1] at h
        | ok p =>
          obtain ⟨s1, st1⟩ := p
          simp only [h1] at h
          rw [ih h1 (by omega)]
          dsimp only at h ⊢
          cases h2 : exprToStringHelp e k be st1 with
          | error err => simp [h2] at h
          | ok q =>
            obtain ⟨s2, st2x⟩ := q
            simp only [h2] at h
            rw [ih h2 (by omega)]
            exact h
      | pi info n i1 i2 =>
        dsimp only at h ⊢
        simp only [Bind.bind, Except.bind] at h ⊢
        cases hn : nameToString e k n with
        | error err => simp [hn] at h
        | ok vn =>
          simp only [hn] at h
          rw [nameToString_mono hn (by omega)]
          cases h1 : exprToStringHelp e k i1 st with
          | error err => simp [h1] at h
          | ok p =>
            obtain ⟨s1, st1⟩ := p
            simp only [h1] at h
            rw [ih h1 (by omega)]
            dsimp only at h ⊢
            cases h2 : exprToStringHelp e k i2 (st1 ++ [vn]) with
            | error err => simp [h2] at h
            | ok q =>
              obtain ⟨s2, st2x⟩ := q
              simp only [h2] at h
              rw [ih h2 (by omega)]
              exact h
      | lambda info n i1 i2 =>
        dsimp only at h ⊢
        simp only [Bind.bind, Except.bind] at h ⊢
        cases hn : nameToString e k n with
        | error err => simp [hn] at h
        | ok vn =>
          simp only [hn] at h
          rw [nameToString_mono hn (by omega)]
          cases h1 : exprToStringHelp e k i1 st with
          | error err => simp [h1] at h
          | ok p =>
            obtain ⟨s1, st1⟩ := p
            simp only [h1] at h
            rw [ih h1 (by omega)]
            dsimp only at h ⊢
            cases h2 : exprToStringHelp e k i2 (st1 ++ [vn]) with
            | error err => simp [h2] at h
            | ok q =>
              obtain ⟨s2, st2x⟩ := q
              simp only [h2] at h
              rw [ih h2 (by omega)]
              exact h



theorem nameItemsAux_extends {e e2 : Environment} (hx : Extends e e2) :
    ∀ {k idx l}, nameItemsAux e k idx = .ok l → nameItemsAux e2 k idx = .ok l := by
  intro k
  induction k with
  | zero => intro idx l h; simp [nameItemsAux] at h
  | succ k ih =>
    intro idx l h
    by_cases h0 : idx = 0
    · subst h0
      simpa [nameItemsAux] using h
    · simp only [nameItemsAux, if_neg h0] at h ⊢
      cases hl : e.names.lookup idx with
      | none => simp [hl] at h
      | some n =>
        simp only [hl] at h
        rw [hx.names idx n hl]
        dsimp only at h ⊢
        cases hr : nameItemsAux e k n.parent with
        | error err => simp [hr, Except.map] at h
        | ok l0 =>
          simp only [hr, Except.map] at h
          rw [ih hr]
          simpa [Except.map] using h

theorem nameToString_extends {e e2 : Environment} (hx : Extends e e2) {k idx : Nat} {s : String}
    (h : nameToString e k idx = .ok s) : nameToString e2 k idx = .ok s := by
  simp only [nameToString] at h ⊢
  cases hr : nameItemsAux e k idx with
  | error err => simp [hr, Except.map] at h
  | ok l =>
    simp only [hr, Except.map] at h
    rw [nameItemsAux_extends hx hr]
    simpa [Except.map] using h

theorem levelToString_extends {e e2 : Environment} (hx : Extends e e2) :
    ∀ {k idx s}, levelToString e k idx = .ok s → levelToString e2 k idx = .ok s := by
  intro k
  induction k with
  | zero => intro idx s h; simp [levelToString] at h
  | succ k ih =>
    intro idx s h
    simp only [levelToString] at h ⊢
    cases hl : e.levels.lookup idx with
    | none => simp [hl] at h
    | some lv =>
      simp only [hl] at h
      rw [hx.levels idx lv hl]
      cases lv with
      | zero => exact h
      | succ u =>
        dsimp only at h ⊢
        cases hr : levelToString e k u with
        | error err => simp [hr, Except.map] at h
        | ok s0 =>
          simp only [hr, Except.map] at h
          rw [ih hr]
          simpa [Except.map] using h
      | max u1 u2 =>
        dsimp only at h ⊢
        simp only [Bind.bind, Except.bind] at h ⊢
        cases h1 : levelToString e k u1 with
        | error err => simp [h1] at h
        | ok s1 =>
          simp only [h1] at h
          rw [ih h1]
          cases h2 : levelToString e k u2 with
          | error err => simp [h2] at h
          | ok s2 =>
            simp only [h2] at h
            rw [ih h2]
            exact h
      | imax u1 u2 =>
        dsimp only at h ⊢
        simp only [Bind.bind, Except.bind] at h ⊢
        cases h1 : levelToString e k u1 with
        | error err => simp [h1] at h
        | ok s1 =>
          simp only [h1] at h
          rw [ih h1]
          cases h2 : levelToString e k u2 with
          | error err => simp [h2] at h
          | ok s2 =>
            simp only [h2] at h
            rw [ih h2]
            exact h
      | param n =>
        dsimp only at h ⊢
        exact nameToString_extends hx h

theorem exprHelp_extends {e e2 : Environment} (hx : Extends e e2) :
    ∀ {k eidx st s st2}, exprToStringHelp e k eidx st = .ok (s, st2) →
      exprToStringHelp e2 k eidx st = .ok (s, st2) := by
  intro k
  induction k with
  | zero => intro eidx st s st2 h; simp [exprToStringHelp] at h
  | succ k ih =>
    intro eidx st s st2 h
    simp only [exprToStringHelp] at h ⊢
    cases hl : e.exprs.lookup eidx with
    | none => simp [hl] at h
    | some x =>
      simp only [hl] at h
      rw [hx.exprs eidx x hl]
      cases x with
      | boundVar i =>
        dsimp only at h ⊢
        exact h
      | sort u =>
        dsimp only at h ⊢
        cases hr : levelToString e k u with
        | error err => simp [hr, Except.map] at h
        | ok s0 =>
          simp only [hr, Except.map] at h
          rw [levelToString_extends hx hr]
          simpa [Except.map] using h
      | constant n lvls =>
        dsimp only at h ⊢
        simp only [Bind.bind, Except.bind] at h ⊢
        cases hn : nameToString e k n with
        | error err => simp [hn] at h
        | ok name =>
          simp only [hn] at h
          rw [nameToString_extends hx hn]
          cases hemp : lvls.isEmpty with
          | true => simp_all
          | false =>
            simp only [hemp, Bool.false_eq_true, if_false] at h ⊢
            cases hm : mapRender (levelToString e k) lvls with
            | error err => simp [hm] at h
            | ok strs =>
              simp only [hm] at h
              rw [mapRender_ok_congr (fun a y hy => levelToString_extends hx hy) hm]
              exact h
      | funAppl fe be =>
        dsimp only at h ⊢
        simp only [Bind.bind, Except.bind] at h ⊢
        cases h1 : exprToStringHelp e k fe st with
        | error err => simp [h1] at h
        | ok p =>
          obtain ⟨s1, st1⟩ := p
          simp only [h1] at h
          rw [ih h1]
          dsimp only at h ⊢
          cases h2 : exprToStringHelp e k be st1 with
          | error err => simp [h2] at h
          | ok q =>
            obtain ⟨s2, st2x⟩ := q
            simp only [h2] at h
            rw [ih h2]
            exact h
      | pi info n i1 i2 =>
        dsimp only at h ⊢
        simp only [Bind.bind, Except.bind] at h ⊢
        cases hn : nameToString e k n with
        | error err => simp [hn] at h
        | ok vn =>
          simp only [hn] at h
          rw [nameToString_extends hx hn]
          cases h1 : exprToStringHelp e k i1 st with
          | error err => simp [h1] at h
          | ok p =>
            obtain ⟨s1, st1⟩ := p
            simp only [h1] at h
            rw [ih h1]
            dsimp only at h ⊢
            cases h2 : exprToStringHelp e k i2 (st1 ++ [vn]) with
            | error err => simp [h2] at h
            | ok q =>
              obtain ⟨s2, st2x⟩ := q
              simp only [h2] at h
              rw [ih h2]
              rw [hx.svs]
              exact h
      | lambda info n i1 i2 =>
        dsimp only at h ⊢
        simp only [Bind.bind, Except.bind] at h ⊢
        cases hn : nameToString e k n with
        | error err => simp [hn] at h
        | ok vn =>
          simp only [hn] at h
          rw [nameToString_extends hx hn]
          cases h1 : exprToStringHelp e k i1 st with
          | error err => simp [h1] at h
          | ok p =>
            obtain ⟨s1, st1⟩ := p
            simp only [h1] at h
            rw [ih h1]
            dsimp only at h ⊢
            cases h2 : exprToStringHelp e k i2 (st1 ++ [vn]) with
            | error err => simp [h2] at h
            | ok q =>
              obtain ⟨s2, st2x⟩ := q
              simp only [h2] at h
              rw [ih h2]
              rw [hx.svs]
              exact h

theorem exprToString_of_helper {e : Environment} {k eidx : Nat} {s : String}
    (h : exprToStringHelp e k eidx [] = .ok (s, [])) : exprToString e k eidx = .ok s := by
  simp [exprToString, Bind.bind, Except.bind, h, pure, Except.pure]

theorem exprToString_mono {e : Environment} {k k2 eidx : Nat} {s : String}
    (h : exprToString e k eidx = .ok s) (hle : k ≤ k2) : exprToString e k2 eidx = .ok s := by
  simp only [exprToString, Bind.bind, Except.bind] at h ⊢
  cases hr : exprToStringHelp e k eidx [] with
  | error err => simp [hr] at h
  | ok p =>
    obtain ⟨s0, st0⟩ := p
    simp only [hr] at h
    rw [exprHelp_mono hr hle]
    exact h

theorem exprToString_extends {e e2 : Environment} (hx : Extends e e2) {k eidx : Nat} {s : String}
    (h : exprToString e k eidx = .ok s) : exprToString e2 k eidx = .ok s := by
  simp only [exprToString, Bind.bind, Except.bind] at h ⊢
  cases hr : exprToStringHelp e k eidx [] with
  | error err => simp [hr] at h
  | ok p =>
    obtain ⟨s0, st0⟩ := p
    simp only [hr] at h
    rw [exprHelp_extends hx hr]
    exact h

theorem mapRender_exists {α β : Type} (F : Nat → α → Except RenderErr β)
    (hmono : ∀ {k k2 : Nat} {a : α} {y : β}, F k a = .ok y → k ≤ k2 → F k2 a = .ok y)
    (l : List α) (h : ∀ a ∈ l, ∃ k y, F k a = .ok y) :
    ∃ k ys, mapRender (F k) l = .ok ys := by
  induction l with
  | nil => exact ⟨0, [], rfl⟩
  | cons a l ih =>
    obtain ⟨ka, ya, hya⟩ := h a (List.mem_cons_self a l)
    obtain ⟨kl, ys, hys⟩ := ih (fun b hb => h b (List.mem_cons_of_mem a hb))
    refine ⟨Nat.max ka kl, ya :: ys, ?_⟩
    simp only [mapRender, Bind.bind, Except.bind]
    rw [hmono hya (Nat.le_max_left ka kl)]
    rw [mapRender_ok_congr (fun b y hy => hmono hy (Nat.le_max_right ka kl)) hys]
    rfl

theorem nameWF_of_aux {e : Environment} :
    ∀ {k idx l}, nameItemsAux e k idx = .ok l → NameWF e idx := by
  intro k
  induction k with
  | zero => intro idx l h; simp [nameItemsAux] at h
  | succ k ih =>
    intro idx l h
    by_cases h0 : idx = 0
    · subst h0; exact NameWF.zero
    · simp only [nameItemsAux, if_neg h0] at h
      cases hl : e.names.lookup idx with
      | none => simp [hl] at h
      | some n =>
        simp only [hl] at h
        cases hr : nameItemsAux e k n.parent with
        | error err => simp [hr, Except.map] at h
        | ok l0 => exact NameWF.step hl (ih hr)

theorem contains_false_none {α : Type} {t : List (Nat × α)} {k : Nat}
    (h : (t.lookup k).isSome = false) : t.lookup k = none := by
  cases hl : t.lookup k <;> simp_all

theorem introLineRender_mono {e : Environment} {k k2 : Nat} {p : Nat × Nat} {y : String}
    (h : introLineRender e k p = .ok y) (hle : k ≤ k2) : introLineRender e k2 p = .ok y := by
  simp only [introLineRender, Bind.bind, Except.bind] at h ⊢
  cases hn : nameToString e k p.1 with
  | error err => simp [hn] at h
  | ok n =>
    simp only [hn] at h
    rw [nameToString_mono hn hle]
    cases ht : exprToString e k p.2 with
    | error err => simp [ht] at h
    | ok t =>
      simp only [ht] at h
      rw [exprToString_mono ht hle]
      exact h

theorem namesOk_extends {e e2 : Environment} (hx : Extends e e2) (hsame : e2.names = e.names)
    (hN : NamesOk e) : NamesOk e2 := by
  intro idx n h
  rw [hsame] at h
  obtain ⟨k, l, hk⟩ := hN idx n h
  exact ⟨k, l, nameItemsAux_extends hx hk⟩

theorem levelsOk_extends {e e2 : Environment} (hx : Extends e e2) (hsame : e2.levels = e.levels)
    (hL : LevelsOk e) : LevelsOk e2 := by
  intro idx l h
  rw [hsame] at h
  obtain ⟨k, s, hk⟩ := hL idx l h
  exact ⟨k, s, levelToString_extends hx hk⟩

theorem exprsOk_extends {e e2 : Environment} (hx : Extends e e2) (hsame : e2.exprs = e.exprs)
    (hE : ExprsOk e) : ExprsOk e2 := by
  intro idx x h st
  rw [hsame] at h
  obtain ⟨k, s, hk⟩ := hE idx x h st
  exact ⟨k, s, exprHelp_extends hx hk⟩

theorem declsOk_extends {e e2 : Environment} (hx : Extends e e2) (hsame : e2.decls = e.decls)
    (hD : DeclsOk e) : DeclsOk e2 := by
  intro idx d h
  rw [hsame] at h
  obtain ⟨hrefs, hname⟩ := hD idx d h
  exact ⟨declRefs_extends hx hrefs,
    fun t b lns hdef => containsName_extends hx (hname t b lns hdef)⟩

theorem envInv_new : EnvInv Environment.new := by
  refine ⟨?_, ?_, ?_, ?_⟩
  · intro idx n h
    simp [Environment.new, List.lookup] at h
  · intro idx l h
    rcases lookup_cons_cases h with ⟨rfl, rfl⟩ | ⟨-, h2⟩
    · exact ⟨1, "0", rfl⟩
    · simp [List.lookup] at h2
  · intro idx x h
    simp [Environment.new, List.lookup] at h
  · intro idx d h
    simp [Environment.new, List.lookup] at h



theorem lookup_cons_self {α : Type} {t : List (Nat × α)} {k : Nat} {v : α} :
    ((k, v) :: t).lookup k = some v := by
  simp [List.lookup]

theorem envInv_reachable : ∀ {e : Environment}, Reachable e → EnvInv e := by
  intro e h
  induction h with
  | new => exact envInv_new
  | @addName e0 e2 idx item parent hr hok ih =>
    obtain ⟨hfresh, hp, rfl⟩ := addName_ok_eq hok
    obtain ⟨hN, hL, hE, hD⟩ := ih
    have hfresh2 : e0.names.lookup idx = none := contains_false_none hfresh
    have hx : Extends e0 { e0 with names := (idx, ⟨item, parent⟩) :: e0.names } :=
      extends_names_cons hfresh2
    refine ⟨?_, levelsOk_extends hx rfl hL, exprsOk_extends hx rfl hE,
      declsOk_extends hx rfl hD⟩
    intro idx2 n2 hlook
    rcases lookup_cons_cases hlook with ⟨heq, hv⟩ | ⟨hne, hold⟩
    · subst heq
      subst hv
      by_cases h0 : idx2 = 0
      · subst h0
        exact ⟨1, [], by simp [nameItemsAux]⟩
      · rcases hp with rfl | hpc
        · refine ⟨2, [NameItem.render item], ?_⟩
          simp only [nameItemsAux, if_neg h0]
          rw [lookup_cons_self]
          dsimp only
          simp [nameItemsAux, Except.map]
        · obtain ⟨np, hnp⟩ := lookup_of_contains hpc
          obtain ⟨k, l, hk⟩ := hN parent np hnp
          have hk2 := nameItemsAux_extends hx hk
          refine ⟨k + 1, NameItem.render item :: l, ?_⟩
          simp only [nameItemsAux, if_neg h0]
          rw [lookup_cons_self]
          dsimp only
          rw [hk2]
          rfl
    · obtain ⟨k, l, hk⟩ := hN idx2 n2 hold
      exact ⟨k, l, nameItemsAux_extends hx hk⟩
  | @addLevelSucc e0 e2 up u hr hok ih =>
    obtain ⟨hfresh, hu, rfl⟩ := addLevelSucc_ok_eq hok
    obtain ⟨hN, hL, hE, hD⟩ := ih
    have hfresh2 : e0.levels.lookup up = none := contains_false_none hfresh
    have hx : Extends e0 { e0 with levels := (up, Level.succ u) :: e0.levels } :=
      extends_levels_cons hfresh2
    refine ⟨namesOk_extends hx rfl hN, ?_, exprsOk_extends hx rfl hE,
      declsOk_extends hx rfl hD⟩
    intro idx2 l2 hlook
    rcases lookup_cons_cases hlook with ⟨heq, hv⟩ | ⟨hne, hold⟩
    · subst heq
      subst hv
      obtain ⟨lu, hlu⟩ := lookup_of_contains hu
      obtain ⟨k, s, hk⟩ := hL u lu hlu
      have hk2 := levelToString_extends hx hk
      refine ⟨k + 1, "(succ " ++ s ++ ")", ?_⟩
      simp only [levelToString]
      rw [lookup_cons_self]
      dsimp only
      rw [hk2]
      rfl
    · obtain ⟨k, s, hk⟩ := hL idx2 l2 hold
      exact ⟨k, s, levelToString_extends hx hk⟩
  | @addLevelMax e0 e2 up u1 u2 hr hok ih =>
    obtain ⟨hfresh, hu1, hu2, rfl⟩ := addLevelMax_ok_eq hok
    obtain ⟨hN, hL, hE, hD⟩ := ih
    have hfresh2 : e0.levels.lookup up = none := contains_false_none hfresh
    have hx : Extends e0 { e0 with levels := (up, Level.max u1 u2) :: e0.levels } :=
      extends_levels_cons hfresh2
    refine ⟨namesOk_extends hx rfl hN, ?_, exprsOk_extends hx rfl hE,
      declsOk_extends hx rfl hD⟩
    intro idx2 l2 hlook
    rcases lookup_cons_cases hlook with ⟨heq, hv⟩ | ⟨hne, hold⟩
    · subst heq
      subst hv
      obtain ⟨lu1, hlu1⟩ := lookup_of_contains hu1
      obtain ⟨lu2, hlu2⟩ := lookup_of_contains hu2
      obtain ⟨k1, s1, hk1⟩ := hL u1 lu1 hlu1
      obtain ⟨k2, s2, hk2⟩ := hL u2 lu2 hlu2
      have h1 := levelToString_extends hx (levelToString_mono hk1 (Nat.le_max_left k1 k2))
      have h2 := levelToString_extends hx (levelToString_mono hk2 (Nat.le_max_right k1 k2))
      refine ⟨Nat.max k1 k2 + 1, "(max " ++ s1 ++ " " ++ s2 ++ ")", ?_⟩
      simp only [levelToString]
      rw [lookup_cons_self]
      dsimp only
      simp only [Bind.bind, Except.bind]
      rw [h1, h2]
      rfl
    · obtain ⟨k, s, hk⟩ := hL idx2 l2 hold
      exact ⟨k, s, levelToString_extends hx hk⟩
  | @addLevelImax e0 e2 up u1 u2 hr hok ih =>
    obtain ⟨hfresh, hu1, hu2, rfl⟩ := addLevelImax_ok_eq hok
    obtain ⟨hN, hL, hE, hD⟩ := ih
    have hfresh2 : e0.levels.lookup up = none := contains_false_none hfresh
    have hx : Extends e0 { e0 with levels := (up, Level.imax u1 u2) :: e0.levels } :=
      extends_levels_cons hfresh2
    refine ⟨namesOk_extends hx rfl hN, ?_, exprsOk_extends hx rfl hE,
      declsOk_extends hx rfl hD⟩
    intro idx2 l2 hlook
    rcases lookup_cons_cases hlook with ⟨heq, hv⟩ | ⟨hne, hold⟩
    · subst heq
      subst hv
      obtain ⟨lu1, hlu1⟩ := lookup_of_contains hu1
      obtain ⟨lu2, hlu2⟩ := lookup_of_contains hu2
      obtain ⟨k1, s1, hk1⟩ := hL u1 lu1 hlu1
      obtain ⟨k2, s2, hk2⟩ := hL u2 lu2 hlu2
      have h1 := levelToString_extends hx (levelToString_mono hk1 (Nat.le_max_left k1 k2))
      have h2 := levelToString_extends hx (levelToString_mono hk2 (Nat.le_max_right k1 k2))
      refine ⟨Nat.max k1 k2 + 1, "(imax " ++ s1 ++ " " ++ s2 ++ ")", ?_⟩
      simp only [levelToString]
      rw [lookup_cons_self]
      dsimp only
      simp only [Bind.bind, Except.bind]
      rw [h1, h2]
      rfl
    · obtain ⟨k, s, hk⟩ := hL idx2 l2 hold
      exact ⟨k, s, levelToString_extends hx hk⟩
  | @addLevelParam e0 e2 up n hr hok ih =>
    obtain ⟨hfresh, hn, rfl⟩ := addLevelParam_ok_eq hok
    obtain ⟨hN, hL, hE, hD⟩ := ih
    have hfresh2 : e0.levels.lookup up = none := contains_false_none hfresh
    have hx : Extends e0 { e0 with levels := (up, Level.param n) :: e0.levels } :=
      extends_levels_cons hfresh2
    refine ⟨namesOk_extends hx rfl hN, ?_, exprsOk_extends hx rfl hE,
      declsOk_extends hx rfl hD⟩
    intro idx2 l2 hlook
    rcases lookup_cons_cases hlook with ⟨heq, hv⟩ | ⟨hne, hold⟩
    · subst heq
      subst hv
      obtain ⟨nn, hnn⟩ := lookup_of_contains hn
      obtain ⟨k, l, hk⟩ := hN n nn hnn
      have hk2 := nameItemsAux_extends hx hk
      refine ⟨k + 1, String.intercalate "." l.reverse, ?_⟩
      simp only [levelToString]
      rw [lookup_cons_self]
      dsimp only
      simp only [nameToString]
      rw [hk2]
      rfl
    · obtain ⟨k, s, hk⟩ := hL idx2 l2 hold
      exact ⟨k, s, levelToString_extends hx hk⟩
  | @addExprSort e0 e2 ep u hr hok ih =>
    obtain ⟨hfresh, hu, rfl⟩ := addExprSort_ok_eq hok
    obtain ⟨hN, hL, hE, hD⟩ := ih
    have hfresh2 : e0.exprs.lookup ep = none := contains_false_none hfresh
    have hx : Extends e0 { e0 with exprs := (ep, Expr.sort u) :: e0.exprs } :=
      extends_exprs_cons hfresh2
    refine ⟨namesOk_extends hx rfl hN, levelsOk_extends hx rfl hL, ?_,
      declsOk_extends hx rfl hD⟩
    intro idx2 x2 hlook st
    rcases lookup_cons_cases hlook with ⟨heq, hv⟩ | ⟨hne, hold⟩
    · subst heq
      subst hv
      obtain ⟨lu, hlu⟩ := lookup_of_contains hu
      obtain ⟨k, s, hk⟩ := hL u lu hlu
      have hk2 := levelToString_extends hx hk
      refine ⟨k + 1, "Sort " ++ s, ?_⟩
      simp only [exprToStringHelp]
      rw [lookup_cons_self]
      dsimp only
      rw [hk2]
      rfl
    · obtain ⟨k, s, hk⟩ := hE idx2 x2 hold st
      exact ⟨k, s, exprHelp_extends hx hk⟩
  | @addExprBoundVar e0 e2 ep i hr hok ih =>
    obtain ⟨hfresh, rfl⟩ := addExprBoundVar_ok_eq hok
    obtain ⟨hN, hL, hE, hD⟩ := ih
    have hfresh2 : e0.exprs.lookup ep = none := contains_false_none hfresh
    have hx : Extends e0 { e0 with exprs := (ep, Expr.boundVar i) :: e0.exprs } :=
      extends_exprs_cons hfresh2
    refine ⟨namesOk_extends hx rfl hN, levelsOk_extends hx rfl hL, ?_,
      declsOk_extends hx rfl hD⟩
    intro idx2 x2 hlook st
    rcases lookup_cons_cases hlook with ⟨heq, hv⟩ | ⟨hne, hold⟩
    · subst heq
      subst hv
      by_cases hi : i < st.length
      · refine ⟨1, st.getD (st.length - 1 - i) "", ?_⟩
        simp only [exprToStringHelp]
        rw [lookup_cons_self]
        dsimp only
        rw [if_pos hi]
      · refine ⟨1, "<" ++ toString i ++ ">", ?_⟩
        simp only [exprToStringHelp]
        rw [lookup_cons_self]
        dsimp only
        rw [if_neg hi]
    · obtain ⟨k, s, hk⟩ := hE idx2 x2 hold st
      exact ⟨k, s, exprHelp_extends hx hk⟩
  | @addExprPi e0 e2 ep info n i1 i2 hr hok ih =>
    obtain ⟨hfresh, hn, h1c, h2c, rfl⟩ := addExprPi_ok_eq hok
    obtain ⟨hN, hL, hE, hD⟩ := ih
    have hfresh2 : e0.exprs.lookup ep = none := contains_false_none hfresh
    have hx : Extends e0 { e0 with exprs := (ep, Expr.pi info n i1 i2) :: e0.exprs } :=
      extends_exprs_cons hfresh2
    refine ⟨namesOk_extends hx rfl hN, levelsOk_extends hx rfl hL, ?_,
      declsOk_extends hx rfl hD⟩
    intro idx2 x2 hlook st
    rcases lookup_cons_cases hlook with ⟨heq, hv⟩ | ⟨hne, hold⟩
    · subst heq
      subst hv
      obtain ⟨nn, hnn⟩ := lookup_of_contains hn
      obtain ⟨kn, ln, hkn⟩ := hN n nn hnn
      have hns : nameToString e0 kn n = .ok (String.intercalate "." ln.reverse) := by
        simp [nameToString, hkn, Except.map]
      obtain ⟨x1, hx1⟩ := lookup_of_contains h1c
      obtain ⟨x2v, hx2v⟩ := lookup_of_contains h2c
      obtain ⟨k1, s1, hk1⟩ := hE i1 x1 hx1 st
      obtain ⟨k2, s2, hk2⟩ := hE i2 x2v hx2v (st ++ [String.intercalate "." ln.reverse])
      have hK1 : kn ≤ Nat.max kn (Nat.max k1 k2) := Nat.le_max_left kn (Nat.max k1 k2)
      have hK2 : k1 ≤ Nat.max kn (Nat.max k1 k2) :=
        le_trans (Nat.le_max_left k1 k2) (Nat.le_max_right kn (Nat.max k1 k2))
      have hK3 : k2 ≤ Nat.max kn (Nat.max k1 k2) :=
        le_trans (Nat.le_max_right k1 k2) (Nat.le_max_right kn (Nat.max k1 k2))
      have hns2 := nameToString_extends hx (nameToString_mono hns hK1)
      have hh1 := exprHelp_extends hx (exprHelp_mono hk1 hK2)
      have hh2 := exprHelp_extends hx (exprHelp_mono hk2 hK3)
      refine ⟨Nat.max kn (Nat.max k1 k2) + 1,
        (if e0.show_var_stack then
          info.toDelims.1 ++ String.intercalate "." ln.reverse ++ " : " ++ s1 ++
            info.toDelims.2 ++ ", " ++ s2 ++ " [" ++ String.intercalate "," st ++ "]"
        else
          info.toDelims.1 ++ String.intercalate "." ln.reverse ++ " : " ++ s1 ++
            info.toDelims.2 ++ ", " ++ s2), ?_⟩
      simp only [exprToStringHelp]
      rw [lookup_cons_self]
      dsimp only
      simp only [Bind.bind, Except.bind]
      rw [hns2, hh1]
      dsimp only
      rw [hh2]
      dsimp only
      rw [List.dropLast_concat]
      rfl
    · obtain ⟨k, s, hk⟩ := hE idx2 x2 hold st
      exact ⟨k, s, exprHelp_extends hx hk⟩
  | @addExprLambda e0 e2 ep info n i1 i2 hr hok ih =>
    obtain ⟨hfresh, hn, h1c, h2c, rfl⟩ := addExprLambda_ok_eq hok
    obtain ⟨hN, hL, hE, hD⟩ := ih
    have hfresh2 : e0.exprs.lookup ep = none := contains_false_none hfresh
    have hx : Extends e0 { e0 with exprs := (ep, Expr.lambda info n i1 i2) :: e0.exprs } :=
      extends_exprs_cons hfresh2
    refine ⟨namesOk_extends hx rfl hN, levelsOk_extends hx rfl hL, ?_,
      declsOk_extends hx rfl hD⟩
    intro idx2 x2 hlook st
    rcases lookup_cons_cases hlook with ⟨heq, hv⟩ | ⟨hne, hold⟩
    · subst heq
      subst hv
      obtain ⟨nn, hnn⟩ := lookup_of_contains hn
      obtain ⟨kn, ln, hkn⟩ := hN n nn hnn
      have hns : nameToString e0 kn n = .ok (String.intercalate "." ln.reverse) := by
        simp [nameToString, hkn, Except.map]
      obtain ⟨x1, hx1⟩ := lookup_of_contains h1c
      obtain ⟨x2v, hx2v⟩ := lookup_of_contains h2c
      obtain ⟨k1, s1, hk1⟩ := hE i1 x1 hx1 st
      obtain ⟨k2, s2, hk2⟩ := hE i2 x2v hx2v (st ++ [String.intercalate "." ln.reverse])
      have hK1 : kn ≤ Nat.max kn (Nat.max k1 k2) := Nat.le_max_left kn (Nat.max k1 k2)
      have hK2 : k1 ≤ Nat.max kn (Nat.max k1 k2) :=
        le_trans (Nat.le_max_left k1 k2) (Nat.le_max_right kn (Nat.max k1 k2))
      have hK3 : k2 ≤ Nat.max kn (Nat.max k1 k2) :=
        le_trans (Nat.le_max_right k1 k2) (Nat.le_max_right kn (Nat.max k1 k2))
      have hns2 := nameToString_extends hx (nameToString_mono hns hK1)
      have hh1 := exprHelp_extends hx (exprHelp_mono hk1 hK2)
      have hh2 := exprHelp_extends hx (exprHelp_mono hk2 hK3)
      refine ⟨Nat.max kn (Nat.max k1 k2) + 1,
        (if e0.show_var_stack then
          info.toDelims.1 ++ String.intercalate "." ln.reverse ++ " : " ++ s1 ++
            info.toDelims.2 ++ ", " ++ s2 ++ " [" ++ String.intercalate "," st ++ "]"
        else
          info.toDelims.1 ++ String.intercalate "." ln.reverse ++ " : " ++ s1 ++
            info.toDelims.2 ++ ", " ++ s2), ?_⟩
      simp only [exprToStringHelp]
      rw [lookup_cons_self]
      dsimp only
      simp only [Bind.bind, Except.bind]
      rw [hns2, hh1]
      dsimp only
      rw [hh2]
      dsimp only
      rw [List.dropLast_concat]
      rfl
    · obtain ⟨k, s, hk⟩ := hE idx2 x2 hold st
      exact ⟨k, s, exprHelp_extends hx hk⟩
  | @addExprConstant e0 e2 ep n lvls hr hok ih =>
    obtain ⟨hfresh, hn, hlv, rfl⟩ := addExprConstant_ok_eq hok
    obtain ⟨hN, hL, hE, hD⟩ := ih
    have hfresh2 : e0.exprs.lookup ep = none := contains_false_none hfresh
    have hx : Extends e0 { e0 with exprs := (ep, Expr.constant n lvls) :: e0.exprs } :=
      extends_exprs_cons hfresh2
    refine ⟨namesOk_extends hx rfl hN, levelsOk_extends hx rfl hL, ?_,
      declsOk_extends hx rfl hD⟩
    intro idx2 x2 hlook st
    rcases lookup_cons_cases hlook with ⟨heq, hv⟩ | ⟨hne, hold⟩
    · subst heq
      subst hv
      obtain ⟨nn, hnn⟩ := lookup_of_contains hn
      obtain ⟨kn, ln, hkn⟩ := hN n nn hnn
      have hns : nameToString e0 kn n = .ok (String.intercalate "." ln.reverse) := by
        simp [nameToString, hkn, Except.map]
      cases hemp : lvls.isEmpty with
      | true =>
        have hns2 := nameToString_extends hx hns
        refine ⟨kn + 1, String.intercalate "." ln.reverse, ?_⟩
        simp only [exprToStringHelp]
        rw [lookup_cons_self]
        dsimp only
        simp only [Bind.bind, Except.bind]
        rw [hns2]
        simp [hemp]
        rfl
      | false =>
        have hexists : ∀ li ∈ lvls, ∃ k y, levelToString e0 k li = .ok y := by
          intro li hm
          obtain ⟨lv, hlvv⟩ := lookup_of_contains (hlv li hm)
          exact hL li lv hlvv
        obtain ⟨km, strs, hms⟩ := mapRender_exists (fun k => levelToString e0 k)
          (fun h hle => levelToString_mono h hle) lvls hexists
        have hns2 := nameToString_extends hx
          (nameToString_mono hns (Nat.le_max_left kn km))
        have hms2 : mapRender (levelToString { e0 with
            exprs := (idx2, Expr.constant n lvls) :: e0.exprs } (Nat.max kn km)) lvls =
            .ok strs :=
          mapRender_ok_congr (fun a y hy => levelToString_extends hx
            (levelToString_mono hy (Nat.le_max_right kn km))) hms
        refine ⟨Nat.max kn km + 1, String.intercalate "." ln.reverse ++ ".\x7b" ++
          String.intercalate "," strs ++ "\x7d", ?_⟩
        simp only [exprToStringHelp]
        rw [lookup_cons_self]
        dsimp only
        simp only [Bind.bind, Except.bind]
        rw [hns2]
        dsimp only
        rw [if_neg (by simp [hemp])]
        rw [hms2]
        rfl
    · obtain ⟨k, s, hk⟩ := hE idx2 x2 hold st
      exact ⟨k, s, exprHelp_extends hx hk⟩
  | @addExprFunAppl e0 e2 ep i1 i2 hr hok ih =>
    obtain ⟨hfresh, h1c, h2c, rfl⟩ := addExprFunAppl_ok_eq hok
    obtain ⟨hN, hL, hE, hD⟩ := ih
    have hfresh2 : e0.exprs.lookup ep = none := contains_false_none hfresh
    have hx : Extends e0 { e0 with exprs := (ep, Expr.funAppl i1 i2) :: e0.exprs } :=
      extends_exprs_cons hfresh2
    refine ⟨namesOk_extends hx rfl hN, levelsOk_extends hx rfl hL, ?_,
      declsOk_extends hx rfl hD⟩
    intro idx2 x2 hlook st
    rcases lookup_cons_cases hlook with ⟨heq, hv⟩ | ⟨hne, hold⟩
    · subst heq
      subst hv
      obtain ⟨x1, hx1⟩ := lookup_of_contains h1c
      obtain ⟨x2v, hx2v⟩ := lookup_of_contains h2c
      obtain ⟨k1, s1, hk1⟩ := hE i1 x1 hx1 st
      obtain ⟨k2, s2, hk2⟩ := hE i2 x2v hx2v st
      have hh1 := exprHelp_extends hx (exprHelp_mono hk1 (Nat.le_max_left k1 k2))
      have hh2 := exprHelp_extends hx (exprHelp_mono hk2 (Nat.le_max_right k1 k2))
      refine ⟨Nat.max k1 k2 + 1, "(" ++ s1 ++ " " ++ s2 ++ ")", ?_⟩
      simp only [exprToStringHelp]
      rw [lookup_cons_self]
      dsimp only
      simp only [Bind.bind, Except.bind]
      rw [hh1]
      dsimp only
      rw [hh2]
      rfl
    · obtain ⟨k, s, hk⟩ := hE idx2 x2 hold st
      exact ⟨k, s, exprHelp_extends hx hk⟩
  | @addDefinition e0 e2 nidx i1 i2 lns hr hok ih =>
    obtain ⟨hfresh, hnn, h1c, h2c, hlns, rfl⟩ := addDefinition_ok_eq hok
    obtain ⟨hN, hL, hE, hD⟩ := ih
    have hfresh2 : e0.decls.lookup nidx = none := contains_false_none hfresh
    have hx : Extends e0 { e0 with decls := (nidx, Decl.Def i1 i2 lns) :: e0.decls } :=
      extends_decls_cons hfresh2
    refine ⟨namesOk_extends hx rfl hN, levelsOk_extends hx rfl hL,
      exprsOk_extends hx rfl hE, ?_⟩
    intro idx2 d2 hlook
    rcases lookup_cons_cases hlook with ⟨heq, hv⟩ | ⟨hne, hold⟩
    · subst heq
      subst hv
      refine ⟨⟨containsExpr_extends hx h1c, containsExpr_extends hx h2c,
        fun m hm => containsName_extends hx (hlns m hm)⟩, ?_⟩
      intro t b lns2 hdef
      exact containsName_extends hx hnn
    · obtain ⟨hrefs, hname⟩ := hD idx2 d2 hold
      exact ⟨declRefs_extends hx hrefs,
        fun t b lns2 hdef => containsName_extends hx (hname t b lns2 hdef)⟩
  | @addInductive e0 e2 params nidx eidx intros lns hr hok ih =>
    obtain ⟨hfresh, hec, hintros, hlns, rfl⟩ := addInductive_ok_eq hok
    obtain ⟨hN, hL, hE, hD⟩ := ih
    have hfresh2 : e0.decls.lookup nidx = none := contains_false_none hfresh
    have hx : Extends e0
        { e0 with decls := (nidx, Decl.Ind params eidx intros lns) :: e0.decls } :=
      extends_decls_cons hfresh2
    refine ⟨namesOk_extends hx rfl hN, levelsOk_extends hx rfl hL,
      exprsOk_extends hx rfl hE, ?_⟩
    intro idx2 d2 hlook
    rcases lookup_cons_cases hlook with ⟨heq, hv⟩ | ⟨hne, hold⟩
    · subst heq
      subst hv
      refine ⟨⟨containsExpr_extends hx hec,
        fun p hp => ⟨containsName_extends hx (hintros p hp).1,
          containsExpr_extends hx (hintros p hp).2⟩,
        fun m hm => containsName_extends hx (hlns m hm)⟩, ?_⟩
      intro t b lns2 hdef
      simp at hdef
    · obtain ⟨hrefs, hname⟩ := hD idx2 d2 hold
      exact ⟨declRefs_extends hx hrefs,
        fun t b lns2 hdef => containsName_extends hx (hname t b lns2 hdef)⟩

theorem nameToString_exists_of_contains {e : Environment} (hN : NamesOk e) {idx : Nat}
    (h : containsName e idx = true) : ∃ k s, nameToString e k idx = .ok s := by
  obtain ⟨n, hn⟩ := lookup_of_contains h
  obtain ⟨k, l, hk⟩ := hN idx n hn
  exact ⟨k, String.intercalate "." l.reverse, by simp [nameToString, hk, Except.map]⟩

theorem exprToString_exists_of_contains {e : Environment} (hE : ExprsOk e) {idx : Nat}
    (h : containsExpr e idx = true) : ∃ k s, exprToString e k idx = .ok s := by
  obtain ⟨x, hx⟩ := lookup_of_contains h
  obtain ⟨k, s, hk⟩ := hE idx x hx []
  exact ⟨k, s, exprToString_of_helper hk⟩

theorem declToString_terminates {e : Environment} (hInv : EnvInv e) {nidx : Nat} {d : Decl}
    (hd : e.decls.lookup nidx = some d) :
    ∃ k r, declToString e k nidx = r ∧ r ≠ .error .fuelOut := by
  obtain ⟨hN, hL, hE, hD⟩ := hInv
  obtain ⟨hrefs, hname⟩ := hD nidx d hd
  cases d with
  | Def t b lns =>
    obtain ⟨h1c, h2c, hlns⟩ := hrefs
    obtain ⟨kn, vn, hns⟩ := nameToString_exists_of_contains hN (hname t b lns rfl)
    have hex : ∀ a ∈ lns, ∃ k y, nameToString e k a = .ok y := by
      intro a ha
      exact nameToString_exists_of_contains hN (hlns a ha)
    obtain ⟨km, strs, hms⟩ := mapRender_exists (fun k => nameToString e k)
      (fun h hle => nameToString_mono h hle) lns hex
    obtain ⟨k1, s1, h1⟩ := exprToString_exists_of_contains hE h1c
    obtain ⟨k2, s2, h2⟩ := exprToString_exists_of_contains hE h2c
    have hKn : kn ≤ Nat.max (Nat.max kn km) (Nat.max k1 k2) :=
      le_trans (Nat.le_max_left kn km) (Nat.le_max_left _ _)
    have hKm : km ≤ Nat.max (Nat.max kn km) (Nat.max k1 k2) :=
      le_trans (Nat.le_max_right kn km) (Nat.le_max_left _ _)
    have hK1 : k1 ≤ Nat.max (Nat.max kn km) (Nat.max k1 k2) :=
      le_trans (Nat.le_max_left k1 k2) (Nat.le_max_right _ _)
    have hK2 : k2 ≤ Nat.max (Nat.max kn km) (Nat.max k1 k2) :=
      le_trans (Nat.le_max_right k1 k2) (Nat.le_max_right _ _)
    have hnsK := nameToString_mono hns hKn
    have hmsK := mapRender_ok_congr (fun a y hy => nameToString_mono hy hKm) hms
    have h1K := exprToString_mono h1 hK1
    have h2K := exprToString_mono h2 hK2
    refine ⟨Nat.max (Nat.max kn km) (Nat.max k1 k2),
      .ok ("definition " ++ vn ++
        (if String.intercalate "," strs = "" then ""
         else ".\x7b" ++ String.intercalate "," strs ++ "\x7d") ++
        " " ++ s1 ++ " := " ++ s2), ?_, by simp⟩
    simp [declToString, defToString, hd, hnsK, hmsK, h1K, h2K, Bind.bind, Except.bind,
      pure, Except.pure]
  | Ind params t intros lns =>
    obtain ⟨htc, hintros, hlns⟩ := hrefs
    have hopt : (∃ kn vn, nameToString e kn nidx = .ok vn) ∨
        nameToString e 1 nidx = .error .notFound := by
      by_cases h0 : nidx = 0
      · subst h0
        exact Or.inl ⟨1, "", by simp [nameToString, nameItemsAux, Except.map]; rfl⟩
      · by_cases hnc : containsName e nidx = true
        · exact Or.inl (nameToString_exists_of_contains hN hnc)
        · have hnone : e.names.lookup nidx = none := by
            cases hl : e.names.lookup nidx with
            | none => rfl
            | some v => exact absurd (by simp [containsName, hl]) hnc
          exact Or.inr (by simp [nameToString, nameItemsAux, h0, hnone, Except.map])
    rcases hopt with ⟨kn, vn, hns⟩ | herr
    · obtain ⟨kt, ts, ht⟩ := exprToString_exists_of_contains hE htc
      have hex : ∀ a ∈ lns, ∃ k y, nameToString e k a = .ok y := by
        intro a ha
        exact nameToString_exists_of_contains hN (hlns a ha)
      obtain ⟨km, strs, hms⟩ := mapRender_exists (fun k => nameToString e k)
        (fun h hle => nameToString_mono h hle) lns hex
      have hexI : ∀ p ∈ intros, ∃ k y, introLineRender e k p = .ok y := by
        intro p hp
        obtain ⟨ka, na, hka⟩ := nameToString_exists_of_contains hN (hintros p hp).1
        obtain ⟨ke, ta, hke⟩ := exprToString_exists_of_contains hE (hintros p hp).2
        refine ⟨Nat.max ka ke, "\n| " ++ na ++ " : " ++ ta, ?_⟩
        have hka2 := nameToString_mono hka (Nat.le_max_left ka ke)
        have hke2 := exprToString_mono hke (Nat.le_max_right ka ke)
        simp [introLineRender, hka2, hke2, Bind.bind, Except.bind, pure, Except.pure]
      obtain ⟨ki, lines, hmi⟩ := mapRender_exists (fun k => introLineRender e k)
        (fun h hle => introLineRender_mono h hle) intros hexI
      have hKn : kn ≤ Nat.max (Nat.max kn km) (Nat.max kt ki) :=
        le_trans (Nat.le_max_left kn km) (Nat.le_max_left _ _)
      have hKm : km ≤ Nat.max (Nat.max kn km) (Nat.max kt ki) :=
        le_trans (Nat.le_max_right kn km) (Nat.le_max_left _ _)
      have hKt : kt ≤ Nat.max (Nat.max kn km) (Nat.max kt ki) :=
        le_trans (Nat.le_max_left kt ki) (Nat.le_max_right _ _)
      have hKi : ki ≤ Nat.max (Nat.max kn km) (Nat.max kt ki) :=
        le_trans (Nat.le_max_right kt ki) (Nat.le_max_right _ _)
      have hnsK := nameToString_mono hns hKn
      have hmsK := mapRender_ok_congr (fun a y hy => nameToString_mono hy hKm) hms
      have htK := exprToString_mono ht hKt
      have hmiK := mapRender_ok_congr (fun a y hy => introLineRender_mono hy hKi) hmi
      refine ⟨Nat.max (Nat.max kn km) (Nat.max kt ki),
        .ok ("inductive " ++ vn ++
          (if String.intercalate "," strs = "" then ""
           else " \x7b" ++ String.intercalate "," strs ++ "\x7d") ++
          " " ++ ts ++ String.intercalate " " lines), ?_, by simp⟩
      simp [declToString, indToString, hd, hnsK, hmsK, htK, hmiK, Bind.bind, Except.bind,
        pure, Except.pure]
    · refine ⟨1, .error .notFound, ?_, by simp⟩
      simp [declToString, hd, herr, Bind.bind, Except.bind]



/-- C4: in every arena state reachable by successful insertions from a
fresh Environment the cross-reference structure is well-founded: every
stored Name's parent chain reaches the sentinel 0 in finitely many
steps (NameWF), and name_to_string, level_to_string, expr_to_string
terminate successfully on every stored index, and decl_to_string
terminates (with enough fuel it never reports fuel exhaustion) on every
stored declaration. -/
theorem c4_reachable_acyclic_and_terminating (e : Environment) (h : Reachable e) :
    (∀ idx n, e.names.lookup idx = some n → NameWF e idx) ∧
    (∀ idx n, e.names.lookup idx = some n → ∃ k s, nameToString e k idx = .ok s) ∧
    (∀ idx l, e.levels.lookup idx = some l → ∃ k s, levelToString e k idx = .ok s) ∧
    (∀ idx x, e.exprs.lookup idx = some x → ∃ k s, exprToString e k idx = .ok s) ∧
    (∀ idx d, e.decls.lookup idx = some d →
      ∃ k r, declToString e k idx = r ∧ r ≠ .error .fuelOut) := by
  obtain ⟨hN, hL, hE, hD⟩ := envInv_reachable h
  refine ⟨?_, ?_, ?_, ?_, ?_⟩
  · intro idx n hlook
    obtain ⟨k, l, hk⟩ := hN idx n hlook
    exact nameWF_of_aux hk
  · intro idx n hlook
    obtain ⟨k, l, hk⟩ := hN idx n hlook
    exact ⟨k, String.intercalate "." l.reverse, by simp [nameToString, hk, Except.map]⟩
  · intro idx l hlook
    exact hL idx l hlook
  · intro idx x hlook
    obtain ⟨k, s, hk⟩ := hE idx x hlook []
    exact ⟨k, s, exprToString_of_helper hk⟩
  · intro idx d hlook
    exact declToString_terminates ⟨hN, hL, hE, hD⟩ hlook

/-- Witness for C4 at the concrete reachable arena eSmall: the parent
chain of name index 1 reaches the sentinel. -/
theorem c4_witness : NameWF eSmall 1 :=
  (c4_reachable_acyclic_and_terminating eSmall
    (@Reachable.addName Environment.new eSmall 1 (NameItem.str "a") 0
      Reachable.new (by rfl))).1 1 ⟨NameItem.str "a", 0⟩ (by rfl)

end LC
